import Mathlib

/-!
# Verification of the cookies-extra library

A shallow embedding of the `Cookie` class (src/cookie), the `CookieMap`
class (src/cookie-map) and their helpers, written over `List Char` /
`String`, together with theorems settling the frozen claims about the
specification.

Modelling conventions:
* JavaScript strings are modelled as Lean `String` (`List Char` internally).
* Exceptions are modelled with `Except String`.
* A JavaScript `number` holding an integer or the NaN sentinel is modelled
  as `Option Int` (`none` = NaN / unset); epoch-millisecond timestamps are
  `Int`.
* The environment functions `Date.parse` and `Date.prototype.toUTCString`
  are not part of the repository; functions that call them take an oracle
  parameter (`dp : String → Option Int`, `fmt : Int → String`).
* `encodeURIComponent` / `decodeURIComponent` are modelled concretely
  (percent-encoding of UTF-8 bytes, strict UTF-8 decoding), and
  `toLowerCase` / `trim` are modelled on the ASCII range, which covers
  every character class the library distinguishes.
-/

namespace CookiesExtra

/-- ASCII whitespace recognised by the model of `String.prototype.trim`. -/
def isJsWs (c : Char) : Bool :=
  c = ' ' || c = '\t' || c = '\n' || c = '\r' || c = '\x0b' || c = '\x0c'

/-- Model of `String.prototype.trim` (ASCII whitespace). -/
def jsTrim (l : List Char) : List Char :=
  ((l.dropWhile isJsWs).reverse.dropWhile isJsWs).reverse

/-- Model of `String.prototype.indexOf` for a single character:
`some i` is the first position of `c`, `none` when absent. -/
def indexOfFirst (c : Char) : List Char → Option Nat
  | [] => none
  | x :: xs => if x = c then some 0 else (indexOfFirst c xs).map (fun n => n + 1)

/-- Model of `String.prototype.split` on a one-character separator:
always returns at least one (possibly empty) chunk, exactly like JS. -/
def splitSep (c : Char) (l : List Char) : List (List Char) :=
  l.foldr
    (fun x acc =>
      if x = c then [] :: acc
      else
        match acc with
        | h :: t => (x :: h) :: t
        | [] => [[x]])
    [[]]

/-- Model of `String.prototype.toLowerCase` on one character (ASCII). -/
def jsToLowerChar (c : Char) : Char :=
  if 'A' ≤ c && c ≤ 'Z' then Char.ofNat (c.toNat + 32) else c

/-- Model of `String.prototype.toLowerCase` (ASCII). -/
def jsToLower (l : List Char) : List Char :=
  l.map jsToLowerChar

def isDigitChar (c : Char) : Bool :=
  '0' ≤ c && c ≤ '9'

def digitsToNat (l : List Char) : Nat :=
  l.foldl (fun acc c => acc * 10 + (c.toNat - 48)) 0

/-- Model of `parseInt(s, 10)`: skip leading whitespace, optional sign,
then the longest run of decimal digits; `none` models NaN. -/
def jsParseInt (l : List Char) : Option Int :=
  let l1 := l.dropWhile isJsWs
  let sl : Int × List Char :=
    match l1 with
    | '-' :: rest => (-1, rest)
    | '+' :: rest => (1, rest)
    | _ => (1, l1)
  let ds := sl.2.takeWhile isDigitChar
  if ds = [] then none else some (sl.1 * (digitsToNat ds : Int))

/-- The UTF-8 bytes of a Unicode scalar value. -/
def utf8Bytes (c : Char) : List Nat :=
  let n := c.toNat
  if n < 0x80 then [n]
  else if n < 0x800 then [0xc0 + n / 64, 0x80 + n % 64]
  else if n < 0x10000 then
    [0xe0 + n / 4096, 0x80 + (n / 64) % 64, 0x80 + n % 64]
  else
    [0xf0 + n / 262144, 0x80 + (n / 4096) % 64, 0x80 + (n / 64) % 64, 0x80 + n % 64]

def hexDigitUpper (n : Nat) : Char :=
  if n < 10 then Char.ofNat (48 + n) else Char.ofNat (55 + n)

def percentByte (b : Nat) : List Char :=
  ['%', hexDigitUpper (b / 16), hexDigitUpper (b % 16)]

/-- Characters `encodeURIComponent` leaves unescaped. -/
def isUnreservedURI (c : Char) : Bool :=
  ('A' ≤ c && c ≤ 'Z') || ('a' ≤ c && c ≤ 'z') || ('0' ≤ c && c ≤ '9') ||
  c = '-' || c = '_' || c = '.' || c = '!' || c = '~' || c = '*' ||
  c = '\'' || c = '(' || c = ')'

/-- Model of `encodeURIComponent`. -/
def encodeURIComponentL (l : List Char) : List Char :=
  (l.map (fun c =>
    if isUnreservedURI c then [c]
    else ((utf8Bytes c).map percentByte).flatten)).flatten

def hexVal (c : Char) : Option Nat :=
  if '0' ≤ c && c ≤ '9' then some (c.toNat - 48)
  else if 'A' ≤ c && c ≤ 'F' then some (c.toNat - 55)
  else if 'a' ≤ c && c ≤ 'f' then some (c.toNat - 87)
  else none

/-- First phase of `decodeURIComponent`: turn the text into a byte
sequence, reading `%hh` escapes; `none` models a URIError. -/
def pctBytes : List Char → Option (List Nat)
  | [] => some []
  | '%' :: h1 :: h2 :: rest => do
      let a ← hexVal h1
      let b ← hexVal h2
      let bs ← pctBytes rest
      pure ((16 * a + b) :: bs)
  | '%' :: _ => none
  | c :: rest => (pctBytes rest).map (fun bs => utf8Bytes c ++ bs)

/-- Second phase of `decodeURIComponent`: strict UTF-8 decoding
(rejects overlong forms, surrogates and values beyond U+10FFFF),
as the JS builtin does; `none` models a URIError. -/
def utf8Decode : List Nat → Option (List Char)
  | [] => some []
  | b :: rest =>
    if b < 0x80 then (utf8Decode rest).map (fun cs => Char.ofNat b :: cs)
    else if b < 0xe0 then
      match rest with
      | c1 :: rest1 =>
        if 0xc2 ≤ b && 0x80 ≤ c1 && c1 < 0xc0 then
          (utf8Decode rest1).map (fun cs =>
            Char.ofNat ((b - 0xc0) * 64 + (c1 - 0x80)) :: cs)
        else none
      | [] => none
    else if b < 0xf0 then
      match rest with
      | c1 :: c2 :: rest2 =>
        if 0x80 ≤ c1 && c1 < 0xc0 && 0x80 ≤ c2 && c2 < 0xc0 then
          let v := (b - 0xe0) * 4096 + (c1 - 0x80) * 64 + (c2 - 0x80)
          if 0x800 ≤ v && (v < 0xd800 || 0xdfff < v) then
            (utf8Decode rest2).map (fun cs => Char.ofNat v :: cs)
          else none
        else none
      | _ => none
    else if b < 0xf5 then
      match rest with
      | c1 :: c2 :: c3 :: rest3 =>
        if 0x80 ≤ c1 && c1 < 0xc0 && 0x80 ≤ c2 && c2 < 0xc0 &&
            0x80 ≤ c3 && c3 < 0xc0 then
          let v := (b - 0xf0) * 262144 + (c1 - 0x80) * 4096 +
            (c2 - 0x80) * 64 + (c3 - 0x80)
          if 0x10000 ≤ v && v ≤ 0x10ffff then
            (utf8Decode rest3).map (fun cs => Char.ofNat v :: cs)
          else none
        else none
      | _ => none
    else none

/-- Model of `decodeURIComponent`; `none` models a URIError. -/
def decodeURIComponentL (l : List Char) : Option (List Char) :=
  (pctBytes l).bind utf8Decode

/-! ## The `Cookie` class (src/cookie) -/

/-- The `CookieSameSite` enum. -/
inductive CookieSameSite where
  | Strict
  | Lax
  | None
deriving DecidableEq

/-- String value of a `CookieSameSite` member (the enum values). -/
def sameSiteStr : CookieSameSite → String
  | .Strict => "Strict"
  | .Lax => "Lax"
  | .None => "None"

/-- The immutable `Cookie` record; `maxAge = none` models the NaN
"unset" sentinel, `expires = -1` is the unset sentinel from the source. -/
structure Cookie where
  name : String
  value : String
  domain : String
  path : String
  expires : Int
  secure : Bool
  sameSite : CookieSameSite
  httpOnly : Bool
  maxAge : Option Int
  partitioned : Bool
deriving DecidableEq

/-- The `CookieOptions` argument of the constructor; `none` models an
omitted (`undefined`) field, and for `maxAge` also a NaN argument
(both are falsy and are treated identically by the constructor). -/
structure CookieOptions where
  name : String
  value : String
  domain : Option String := none
  path : Option String := none
  expires : Option Int := none
  secure : Option Bool := none
  sameSite : Option CookieSameSite := none
  httpOnly : Option Bool := none
  maxAge : Option Int := none
  partitioned : Option Bool := none

/-- Source method `Cookie.isValidCharacterInCookieName`. -/
def isValidCharacterInCookieName (c : Char) : Bool :=
  (0x21 ≤ c.toNat && c.toNat ≤ 0x3a) || c.toNat = 0x3c ||
  (0x3e ≤ c.toNat && c.toNat ≤ 0x7e)

/-- Source method `Cookie.isValidCookieName`. -/
def isValidCookieName (name : String) : Bool :=
  if name.data.isEmpty then false
  else name.data.all isValidCharacterInCookieName

/-- Source method `Cookie.isValidCharacterInCookiePath`. -/
def isValidCharacterInCookiePath (c : Char) : Bool :=
  (0x20 ≤ c.toNat && c.toNat ≤ 0x3a) || (0x3d ≤ c.toNat && c.toNat ≤ 0x7e)

/-- Source method `Cookie.isValidCookiePath`. -/
def isValidCookiePath (path : String) : Bool :=
  path.data.all isValidCharacterInCookiePath

/-- Source method `Cookie.isValidCharacterInCookieDomain`. -/
def isValidCharacterInCookieDomain (c : Char) : Bool :=
  (97 ≤ c.toNat && c.toNat ≤ 122) || (48 ≤ c.toNat && c.toNat ≤ 57) ||
  c.toNat = 46 || c.toNat = 45

/-- Source method `Cookie.isValidCookieDomain`. -/
def isValidCookieDomain (domain : String) : Bool :=
  domain.data.all isValidCharacterInCookieDomain

/-- JS `x || d` for an optional string field (`undefined` and the empty
string are falsy). -/
def jsOrStr (x : Option String) (d : String) : String :=
  match x with
  | some s => if s = "" then d else s
  | none => d

/-- JS `x || d` for an optional integer field (`undefined` and `0` are
falsy; the NaN case does not arise for `expires` in this library). -/
def jsOrInt (x : Option Int) (d : Int) : Int :=
  match x with
  | some v => if v = 0 then d else v
  | none => d

/-- JS `x || NaN` for the `maxAge` field (`undefined`, NaN and `0` all
yield NaN, modelled as `none`). -/
def jsOrNaN (x : Option Int) : Option Int :=
  match x with
  | some v => if v = 0 then none else some v
  | none => none

/-- JS `options.f && !valid(options.f)`: the guard of the constructor
for the optional path/domain fields (skipped when falsy). -/
def jsStrOptFails (x : Option String) (valid : String → Bool) : Bool :=
  match x with
  | some s => !(s == "") && !valid s
  | none => false

/-- The three character-class checks of the validating constructor,
in source order. -/
def createFailsB (options : CookieOptions) : Bool :=
  !isValidCookieName options.name ||
  jsStrOptFails options.path isValidCookiePath ||
  jsStrOptFails options.domain isValidCookieDomain

/-- The validating constructor (`new Cookie(options)` / `Cookie.create`):
validates name always, path and domain only when truthy, then fills the
fields with the `||`-style defaults of the source. -/
def Cookie.create (options : CookieOptions) : Except String Cookie :=
  if !isValidCookieName options.name then
    .error ("Invalid cookie name: contains invalid characters")
  else if jsStrOptFails options.path isValidCookiePath then
    .error ("Invalid cookie path: contains invalid characters")
  else if jsStrOptFails options.domain isValidCookieDomain then
    .error ("Invalid cookie domain: contains invalid characters")
  else .ok {
    name := options.name
    value := options.value
    domain := jsOrStr options.domain ""
    path := jsOrStr options.path "/"
    expires := jsOrInt options.expires (-1)
    secure := options.secure.getD false
    sameSite := options.sameSite.getD CookieSameSite.Lax
    httpOnly := options.httpOnly.getD false
    maxAge := jsOrNaN options.maxAge
    partitioned := options.partitioned.getD false }

/-- Source method `cookie.hasExpiry()`. -/
def Cookie.hasExpiry (c : Cookie) : Bool :=
  !(c.expires == -1) && c.expires ≥ 1

/-- The parts list built by `cookie.toString()`, in the fixed source
order; `fmt` models `new Date(n).toUTCString()`. -/
def Cookie.toStringParts (fmt : Int → String) (c : Cookie) : List (List Char) :=
  [c.name.data ++ '=' :: encodeURIComponentL c.value.data]
  ++ (if c.domain = "" then [] else [("Domain=").data ++ c.domain.data])
  ++ (if c.path = "" then [] else [("Path=").data ++ c.path.data])
  ++ (if c.hasExpiry then [("Expires=").data ++ (fmt c.expires).data] else [])
  ++ (match c.maxAge with
      | some v => [("Max-Age=").data ++ (ToString.toString v).data]
      | none => [])
  ++ (if c.secure then [("Secure").data] else [])
  ++ (if c.httpOnly then [("HttpOnly").data] else [])
  ++ (if c.partitioned then [("Partitioned").data] else [])
  ++ [("SameSite=").data ++ (sameSiteStr c.sameSite).data]

/-- Model of `parts.join("; ")`. -/
def joinSemi : List (List Char) → List Char
  | [] => []
  | [p] => p
  | p :: q :: rest => p ++ ("; ").data ++ joinSemi (q :: rest)

/-- Source method `cookie.toString()`: serialize to Set-Cookie format. -/
def Cookie.toStr (fmt : Int → String) (c : Cookie) : String :=
  ⟨joinSemi (Cookie.toStringParts fmt c)⟩

/-- The mutable locals of the attribute loop of `Cookie.parse`. -/
structure AttrState where
  domain : String
  path : String
  expires : Int
  secure : Bool
  sameSite : CookieSameSite
  httpOnly : Bool
  maxAge : Option Int
  partitioned : Bool
  hasMaxAge : Bool
deriving DecidableEq

/-- Initial values of the attribute loop locals. -/
def initAttrState : AttrState :=
  { domain := "", path := "/", expires := -1, secure := false,
    sameSite := CookieSameSite.Lax, httpOnly := false, maxAge := none,
    partitioned := false, hasMaxAge := false }

/-- The `switch` of the attribute loop of `Cookie.parse`, acting on the
already-computed lowercased attribute name and trimmed value. -/
def processAttrCore (dp : String → Option Int) (st : AttrState)
    (attributeName attributeValue : List Char) : AttrState :=
  if attributeName = ("domain").data then
    if attributeValue ≠ [] then { st with domain := ⟨jsToLower attributeValue⟩ }
    else st
  else if attributeName = ("path").data then
    if attributeValue.head? = some '/' then { st with path := ⟨attributeValue⟩ }
    else st
  else if attributeName = ("expires").data then
    if !st.hasMaxAge && attributeValue ≠ [] then
      match dp ⟨attributeValue⟩ with
      | some parsed => { st with expires := parsed }
      | none => st
    else st
  else if attributeName = ("max-age").data then
    match jsParseInt attributeValue with
    | some parsedMaxAge => { st with maxAge := some parsedMaxAge, hasMaxAge := true }
    | none => st
  else if attributeName = ("secure").data then { st with secure := true }
  else if attributeName = ("httponly").data then { st with httpOnly := true }
  else if attributeName = ("partitioned").data then { st with partitioned := true }
  else if attributeName = ("samesite").data then
    let lowerValue := jsToLower attributeValue
    if lowerValue = ("strict").data then { st with sameSite := CookieSameSite.Strict }
    else if lowerValue = ("lax").data then { st with sameSite := CookieSameSite.Lax }
    else if lowerValue = ("none").data then { st with sameSite := CookieSameSite.None }
    else st
  else st

/-- The lowercased attribute name of a token: the trimmed part before
the first `=` of the trimmed token (the whole token when there is no
`=`). -/
def attrNameOf (attrTok : List Char) : List Char :=
  match indexOfFirst '=' (jsTrim attrTok) with
  | some i => jsToLower (jsTrim ((jsTrim attrTok).take i))
  | none => jsToLower (jsTrim attrTok)

/-- The trimmed attribute value of a token: the part after the first
`=` of the trimmed token (empty for a boolean attribute). -/
def attrValueOf (attrTok : List Char) : List Char :=
  match indexOfFirst '=' (jsTrim attrTok) with
  | some i => jsTrim ((jsTrim attrTok).drop (i + 1))
  | none => []

/-- One iteration of the attribute loop of `Cookie.parse`: trim the
token, split it at the first `=` into a lowercased name and a trimmed
value (no `=` means a boolean attribute with empty value), then run the
`switch`. -/
def processAttribute (dp : String → Option Int) (st : AttrState)
    (attrTok : List Char) : AttrState :=
  processAttrCore dp st (attrNameOf attrTok) (attrValueOf attrTok)

/-- The cookie-pair: the portion of the input before the first `;`
(the whole input when there is none). -/
def cookiePairOf (l : List Char) : List Char :=
  match indexOfFirst ';' l with
  | none => l
  | some i => l.take i

/-- The attributes string: the portion after the first `;`, absent when
there is no `;`. -/
def attributesOf (l : List Char) : Option (List Char) :=
  match indexOfFirst ';' l with
  | none => none
  | some i => some (l.drop (i + 1))

/-- The attribute loop of `Cookie.parse`: fold `processAttribute` over
the `;`-split attributes string. -/
def parseAttrState (dp : String → Option Int) (l : List Char) : AttrState :=
  match attributesOf l with
  | none => initAttrState
  | some attributesString =>
    (splitSep ';' attributesString).foldl (processAttribute dp) initAttrState

/-- The `CookieOptions` record `Cookie.parse` hands to `Cookie.create`,
given the position `i` of the first `=` in the cookie-pair. -/
def parseOptionsAt (dp : String → Option Int) (l : List Char) (i : Nat) :
    CookieOptions :=
  let cookiePair := cookiePairOf l
  let st := parseAttrState dp l
  { name := ⟨jsTrim (cookiePair.take i)⟩
    value := ⟨jsTrim (cookiePair.drop (i + 1))⟩
    domain := some st.domain
    path := some st.path
    expires := some st.expires
    secure := some st.secure
    sameSite := some st.sameSite
    httpOnly := some st.httpOnly
    maxAge := st.maxAge
    partitioned := some st.partitioned }

/-- Source method `Cookie.parse(cookieString)`; `dp` models `Date.parse`. -/
def Cookie.parse (dp : String → Option Int) (cookieString : String) :
    Except String Cookie :=
  let l := cookieString.data
  if l.length < 2 then .error ("Invalid cookie string: empty")
  else
    match indexOfFirst '=' (cookiePairOf l) with
    | none => .error ("Invalid cookie string: no equals sign found")
    | some firstEqualsPos =>
      if jsTrim ((cookiePairOf l).take firstEqualsPos) = [] then
        .error ("Invalid cookie string: name cannot be empty")
      else
        Cookie.create (parseOptionsAt dp l firstEqualsPos)

/-! ## The `CookieMap` class (src/cookie-map) -/

/-- The `KeyValuePair` interface. -/
structure KeyValuePair where
  key : String
  value : String
deriving DecidableEq

/-- The two sequences of a `CookieMap` (the object state). -/
structure CookieMap where
  originalCookies : List KeyValuePair
  modifiedCookies : List Cookie
deriving DecidableEq

/-- The per-pair decode step of `parseFromCookieString`: when the gate
is on, try to decode both name and value, falling back to the raw views
when either decode raises (the `try`/`catch` of the source). -/
def decodePair (hasPercentEncoded : Bool) (nameView valueView : List Char) :
    KeyValuePair :=
  if hasPercentEncoded then
    match decodeURIComponentL nameView, decodeURIComponentL valueView with
    | some n, some v => { key := ⟨n⟩, value := ⟨v⟩ }
    | _, _ => { key := ⟨nameView⟩, value := ⟨valueView⟩ }
  else { key := ⟨nameView⟩, value := ⟨valueView⟩ }

/-- Source method `CookieMap.parseFromCookieString`: the original-entries
list built from a Cookie-header string. -/
def parseFromCookieString (cookieString : String) : List KeyValuePair :=
  if jsTrim cookieString.data = [] then []
  else
    let pairs := splitSep ';' cookieString.data
    let hasPercentEncoded := cookieString.data.contains '%'
    pairs.foldl
      (fun acc pair =>
        match indexOfFirst '=' pair with
        | none => acc
        | some equalsPos =>
          let nameView := jsTrim (pair.take equalsPos)
          let valueView := jsTrim (pair.drop (equalsPos + 1))
          if nameView = [] then acc
          else acc ++ [decodePair hasPercentEncoded nameView valueView])
      []

/-- Constructor `new CookieMap(cookieString)`. -/
def CookieMap.ofString (s : String) : CookieMap :=
  { originalCookies := parseFromCookieString s, modifiedCookies := [] }

/-- Constructor `new CookieMap(array)`; Lean pairs always have the
length-2 shape the source checks for. -/
def CookieMap.ofPairs (pairs : List (String × String)) : CookieMap :=
  { originalCookies := pairs.map (fun p => { key := p.1, value := p.2 }),
    modifiedCookies := [] }

/-- Source method `cookieMap.get(name)`: modified first (absent when the stored value
is empty), then original, else absent. -/
def CookieMap.get (m : CookieMap) (name : String) : Option String :=
  match m.modifiedCookies.find? (fun cookie => cookie.name == name) with
  | some cookie => if cookie.value = "" then none else some cookie.value
  | none =>
    match m.originalCookies.find? (fun cookie => cookie.key == name) with
    | some kv => some kv.value
    | none => none

/-- Source method `cookieMap.getAll()`. -/
def CookieMap.getAll (m : CookieMap) : List KeyValuePair :=
  (m.modifiedCookies.filter (fun cookie => cookie.value != "")).map
    (fun cookie => { key := cookie.name, value := cookie.value })
  ++ m.originalCookies

/-- Source method `cookieMap.has(name)`. -/
def CookieMap.has (m : CookieMap) (name : String) : Bool :=
  (m.get name).isSome

/-- Source method `CookieMap.removeInternal`: filter the name out of both
sequences. -/
def CookieMap.removeInternal (m : CookieMap) (name : String) : CookieMap :=
  { originalCookies := m.originalCookies.filter (fun cookie => cookie.key != name),
    modifiedCookies := m.modifiedCookies.filter (fun cookie => cookie.name != name) }

/-- Source method `cookieMap.set(cookie)`: remove-then-append. -/
def CookieMap.setCookie (m : CookieMap) (cookie : Cookie) : CookieMap :=
  let m1 := m.removeInternal cookie.name
  { m1 with modifiedCookies := m1.modifiedCookies ++ [cookie] }

/-- Source method `cookieMap.set(name, value)`: build the cookie with the validating
constructor (a validation error propagates before any mutation), then
remove-then-append. -/
def CookieMap.set (m : CookieMap) (name value : String) :
    Except String Unit × CookieMap :=
  match Cookie.create { name := name, value := value } with
  | .error e => (.error e, m)
  | .ok cookie => (.ok (), m.setCookie cookie)

/-- The `CookieStoreDeleteOptions` interface. -/
structure CookieStoreDeleteOptions where
  name : String
  domain : Option String := none
  path : Option String := none

/-- Source method `cookieMap.delete(...)`: record presence, remove the name, then
append the delete marker built by the validating constructor.  On a
constructor error the source object keeps the removal already applied
and the exception propagates; the pair returns that partial state. -/
def CookieMap.deleteOpts (m : CookieMap) (opts : CookieStoreDeleteOptions) :
    Except String Bool × CookieMap :=
  let hadCookie := m.has opts.name
  let m1 := m.removeInternal opts.name
  match Cookie.create
      { name := opts.name, value := "",
        domain := some (opts.domain.getD ""),
        path := some (opts.path.getD "/"),
        expires := some 1, secure := some false,
        sameSite := some CookieSameSite.Lax, httpOnly := some false,
        maxAge := none, partitioned := some false } with
  | .error e => (.error e, m1)
  | .ok deleteCookie =>
    (.ok hadCookie, { m1 with modifiedCookies := m1.modifiedCookies ++ [deleteCookie] })

/-- Source method `cookieMap.delete(name)` (string overload: no
domain/path). -/
def CookieMap.deleteName (m : CookieMap) (name : String) :
    Except String Bool × CookieMap :=
  m.deleteOpts { name := name }

/-- Source method `cookieMap.clear()`. -/
def CookieMap.clear (_m : CookieMap) : CookieMap :=
  { originalCookies := [], modifiedCookies := [] }

/-- Source method `cookieMap.size()`. -/
def CookieMap.size (m : CookieMap) : Nat :=
  (m.modifiedCookies.filter (fun cookie => cookie.value != "")).length
  + m.originalCookies.length

/-- One `result[k] = v` assignment on the insertion-ordered object model:
overwrite in place when the key exists, else append. -/
def jsObjSet (l : List (String × String)) (k v : String) :
    List (String × String) :=
  if l.any (fun p => p.1 == k) then
    l.map (fun p => if p.1 == k then (p.1, v) else p)
  else l ++ [(k, v)]

/-- Source method `cookieMap.toJSON()`: a JS object modelled as an insertion-ordered
association list. -/
def CookieMap.toJSON (m : CookieMap) : List (String × String) :=
  let result := m.modifiedCookies.foldl
    (fun result cookie =>
      if cookie.value != "" then jsObjSet result cookie.name cookie.value
      else result)
    []
  m.originalCookies.foldl
    (fun result cookie =>
      if !(result.any (fun p => p.1 == cookie.key)) then
        result ++ [(cookie.key, cookie.value)]
      else result)
    result

/-- Source method `cookieMap.getAllChanges()`. -/
def CookieMap.getAllChanges (m : CookieMap) : List Cookie :=
  m.modifiedCookies

/-- The sequence produced by the `[Symbol.iterator]` generator:
non-empty-value modified entries, then original entries — the same
loops as `getAll`. -/
def CookieMap.iterList (m : CookieMap) : List KeyValuePair :=
  m.getAll

/-- The public mutating operations, for quantifying over call
sequences.  A constructor exception inside `set(name, value)` leaves
the object unchanged; inside `delete` it leaves the removal applied
(see `deleteOpts`). -/
inductive MapOp where
  | setPair (name value : String)
  | setCookie (cookie : Cookie)
  | del (opts : CookieStoreDeleteOptions)
  | clearAll

/-- Apply one public mutating operation to the object state. -/
def applyOp (m : CookieMap) (op : MapOp) : CookieMap :=
  match op with
  | .setPair n v => (m.set n v).2
  | .setCookie c => m.setCookie c
  | .del opts => (m.deleteOpts opts).2
  | .clearAll => m.clear

/-! ## Derived notions used by the claims -/

/-- The multiset of cookie names across `original ∪ modified`. -/
def namesOf (m : CookieMap) : List String :=
  m.originalCookies.map (fun kv => kv.key) ++
  m.modifiedCookies.map (fun c => c.name)

/-- The raw (pre-decode) pairs of `parseFromCookieString`: split on `;`,
skip segments with no `=` or an empty trimmed name, trim name and value. -/
def rawPairsOf (s : String) : List (List Char × List Char) :=
  if jsTrim s.data = [] then []
  else
    (splitSep ';' s.data).foldl
      (fun acc pair =>
        match indexOfFirst '=' pair with
        | none => acc
        | some equalsPos =>
          let nameView := jsTrim (pair.take equalsPos)
          let valueView := jsTrim (pair.drop (equalsPos + 1))
          if nameView = [] then acc
          else acc ++ [(nameView, valueView)])
      []

/-- The exact failure condition of `Cookie.parse`: input shorter than 2,
no `=` in the cookie-pair, empty trimmed name, or the validating
constructor's character-class checks reject the computed options. -/
def parseFails (dp : String → Option Int) (s : String) : Prop :=
  s.data.length < 2 ∨
  indexOfFirst '=' (cookiePairOf s.data) = none ∨
  (∃ i, indexOfFirst '=' (cookiePairOf s.data) = some i ∧
    jsTrim ((cookiePairOf s.data).take i) = []) ∨
  (∃ i, indexOfFirst '=' (cookiePairOf s.data) = some i ∧
    createFailsB (parseOptionsAt dp s.data i) = true)

/-- The options record `Cookie.parse` builds from a trimmed name, a
trimmed value and the attribute-loop state. -/
def mkParseOptions (n v : List Char) (st : AttrState) : CookieOptions :=
  { name := ⟨n⟩, value := ⟨v⟩, domain := some st.domain,
    path := some st.path, expires := some st.expires,
    secure := some st.secure, sameSite := some st.sameSite,
    httpOnly := some st.httpOnly, maxAge := st.maxAge,
    partitioned := some st.partitioned }

/-- The cookie produced by the validating constructor from a bare
name/value options record (every other attribute defaulted). -/
def defaultCookie (n v : String) : Cookie :=
  { name := n, value := v, domain := "", path := "/", expires := -1,
    secure := false, sameSite := CookieSameSite.Lax, httpOnly := false,
    maxAge := none, partitioned := false }

/-- The per-segment step of `parseFromCookieString`, as a partial
function: `none` when the segment is skipped. -/
def segStep (hp : Bool) (pair : List Char) : Option KeyValuePair :=
  match indexOfFirst '=' pair with
  | none => none
  | some equalsPos =>
    if jsTrim (pair.take equalsPos) = [] then none
    else some (decodePair hp (jsTrim (pair.take equalsPos))
      (jsTrim (pair.drop (equalsPos + 1))))

/-- The per-segment step of `rawPairsOf`. -/
def segStepRaw (pair : List Char) : Option (List Char × List Char) :=
  match indexOfFirst '=' pair with
  | none => none
  | some equalsPos =>
    if jsTrim (pair.take equalsPos) = [] then none
    else some (jsTrim (pair.take equalsPos), jsTrim (pair.drop (equalsPos + 1)))

/-- The cookie of the C8 witness: the parse of `"a=b; Domain=EX.com"`. -/
def cookieC8 : Cookie :=
  { name := "a", value := "b", domain := "ex.com", path := "/",
    expires := -1, secure := false, sameSite := CookieSameSite.Lax,
    httpOnly := false, maxAge := none, partitioned := false }

/-- The concrete name/value cookie of the C3 counterexample. -/
def cookieC3 : Cookie :=
  defaultCookie ("test") ("hello world")

/-- A concrete stand-in for `Date.parse` that parses exactly one HTTP
date, used to instantiate the oracle in the C1 counterexample. -/
def dpC1 : String → Option Int :=
  fun s => if s = "Thu, 01 Jan 1970 00:00:02 GMT" then some 2000 else none

/-! ## Heap-level model of `CookieMap` array identity (for the clone
claim)

The two sequences of a `CookieMap` live in JavaScript arrays.  `clone()`
copies both arrays (`[...arr]`), and every mutator either reassigns a
field to a freshly allocated array (`filter`, `clear`) or pushes onto an
array that the same call just allocated, so no operation ever writes to
a previously existing array.  The heap model makes array identity
explicit so that absence of shared mutable state is a statable
property: a heap holds the allocated arrays, an object holds the ids of
its two current arrays. -/

/-- The array heap: allocated key/value arrays and cookie arrays. -/
structure CookieHeap where
  kvArrs : List (List KeyValuePair)
  ckArrs : List (List Cookie)

/-- An object's fields: ids of its two current arrays. -/
structure CookieMapRef where
  origId : Nat
  modId : Nat
deriving DecidableEq

/-- Read a key/value array from the heap. -/
def CookieHeap.getKv (h : CookieHeap) (i : Nat) : List KeyValuePair :=
  h.kvArrs.getD i []

/-- Read a cookie array from the heap. -/
def CookieHeap.getCk (h : CookieHeap) (i : Nat) : List Cookie :=
  h.ckArrs.getD i []

/-- Allocate a fresh key/value array; its id is the old heap size. -/
def allocKv (h : CookieHeap) (a : List KeyValuePair) : CookieHeap × Nat :=
  ({ h with kvArrs := h.kvArrs ++ [a] }, h.kvArrs.length)

/-- Allocate a fresh cookie array; its id is the old heap size. -/
def allocCk (h : CookieHeap) (a : List Cookie) : CookieHeap × Nat :=
  ({ h with ckArrs := h.ckArrs ++ [a] }, h.ckArrs.length)

/-- In-place `push` on the cookie array with id `i`. -/
def pushCkH (h : CookieHeap) (i : Nat) (c : Cookie) : CookieHeap :=
  { h with ckArrs := h.ckArrs.set i (h.getCk i ++ [c]) }

/-- The functional view of an object: the contents of its two arrays. -/
def toPure (h : CookieHeap) (r : CookieMapRef) : CookieMap :=
  { originalCookies := h.getKv r.origId, modifiedCookies := h.getCk r.modId }

/-- Well-formed reference: both ids are allocated. -/
def WFRef (h : CookieHeap) (r : CookieMapRef) : Prop :=
  r.origId < h.kvArrs.length ∧ r.modId < h.ckArrs.length

/-- Heap-level `removeInternal`: both fields are reassigned to freshly
allocated `filter` results. -/
def removeInternalH (h : CookieHeap) (r : CookieMapRef) (name : String) :
    CookieHeap × CookieMapRef :=
  let p1 := allocKv h ((h.getKv r.origId).filter (fun kv => kv.key != name))
  let p2 := allocCk p1.1 ((p1.1.getCk r.modId).filter (fun c => c.name != name))
  (p2.1, { origId := p1.2, modId := p2.2 })

/-- Heap-level `set(cookie)`: `removeInternal`, then push onto the
(just reallocated) modified array. -/
def setCookieH (h : CookieHeap) (r : CookieMapRef) (cookie : Cookie) :
    CookieHeap × CookieMapRef :=
  let p := removeInternalH h r cookie.name
  (pushCkH p.1 p.2.modId cookie, p.2)

/-- Heap-level `set(name, value)`: the validating constructor runs
before any mutation, so a validation error leaves the heap unchanged. -/
def setH (h : CookieHeap) (r : CookieMapRef) (name value : String) :
    CookieHeap × CookieMapRef :=
  match Cookie.create { name := name, value := value } with
  | .error _ => (h, r)
  | .ok cookie => setCookieH h r cookie

/-- Heap-level `delete`: `removeInternal`, then push the delete marker
(built after the removal, as in the source). -/
def deleteH (h : CookieHeap) (r : CookieMapRef)
    (opts : CookieStoreDeleteOptions) : CookieHeap × CookieMapRef :=
  let p := removeInternalH h r opts.name
  match Cookie.create
      { name := opts.name, value := "",
        domain := some (opts.domain.getD ""),
        path := some (opts.path.getD "/"),
        expires := some 1, secure := some false,
        sameSite := some CookieSameSite.Lax, httpOnly := some false,
        maxAge := none, partitioned := some false } with
  | .error _ => p
  | .ok dc => (pushCkH p.1 p.2.modId dc, p.2)

/-- Heap-level `clear()`: both fields reassigned to fresh empty arrays. -/
def clearH (h : CookieHeap) (_r : CookieMapRef) : CookieHeap × CookieMapRef :=
  let p1 := allocKv h []
  let p2 := allocCk p1.1 []
  (p2.1, { origId := p1.2, modId := p2.2 })

/-- Heap-level `clone()`: `new CookieMap()` allocates two empty arrays,
then both fields are reassigned to fresh copies (`[...arr]`) of the
source object's arrays. -/
def cloneH (h : CookieHeap) (r : CookieMapRef) : CookieHeap × CookieMapRef :=
  let p1 := allocKv h []
  let p2 := allocCk p1.1 []
  let p3 := allocKv p2.1 (p2.1.getKv r.origId)
  let p4 := allocCk p3.1 (p3.1.getCk r.modId)
  (p4.1, { origId := p3.2, modId := p4.2 })

/-- Apply one public mutating operation at the heap level. -/
def applyOpH (p : CookieHeap × CookieMapRef) (op : MapOp) :
    CookieHeap × CookieMapRef :=
  match op with
  | .setPair n v => setH p.1 p.2 n v
  | .setCookie c => setCookieH p.1 p.2 c
  | .del opts => deleteH p.1 p.2 opts
  | .clearAll => clearH p.1 p.2

/-- Run a call sequence at the heap level. -/
def runOpsH (p : CookieHeap × CookieMapRef) (ops : List MapOp) :
    CookieHeap × CookieMapRef :=
  ops.foldl applyOpH p

/-- A concrete one-cookie heap and object for the clone witness. -/
def heapC9 : CookieHeap :=
  { kvArrs := [[{ key := "a", value := "1" }]], ckArrs := [[]] }

/-- The object owning the two arrays of `heapC9`. -/
def refC9 : CookieMapRef :=
  { origId := 0, modId := 0 }

/-- Heap extension: every already-allocated array keeps its contents
(new arrays may be allocated after them). -/
def HeapExtends (h h2 : CookieHeap) : Prop :=
  h.kvArrs.length ≤ h2.kvArrs.length ∧ h.ckArrs.length ≤ h2.ckArrs.length ∧
  (∀ i, i < h.kvArrs.length → h2.getKv i = h.getKv i) ∧
  (∀ i, i < h.ckArrs.length → h2.getCk i = h.getCk i)

/-! ## Claim C10: falsy conflation of `maxAge = 0` and `expires = 0` -/

/-- Claim C10 (confirmed).  Constructing a cookie with `maxAge = 0`
stores the NaN "unset" value (`none`), and constructing with
`expires = 0` stores the unset sentinel `-1`, so `hasExpiry()` is false
and `toString()` omits both the `Max-Age` and the `Expires` part: the
constructor's `||`-defaulting conflates the legal value `0` with
"unset" for both fields. -/
theorem claim_C10 (fmt : Int → String) (name value : String)
    (h : isValidCookieName name = true) :
    Cookie.create { name := name, value := value, maxAge := some 0, expires := some 0 } =
      .ok (defaultCookie name value) ∧
    (defaultCookie name value).maxAge = none ∧
    (defaultCookie name value).expires = -1 ∧
    (defaultCookie name value).hasExpiry = false ∧
    Cookie.toStringParts fmt (defaultCookie name value) =
      [name.data ++ '=' :: encodeURIComponentL value.data,
       ("Path=/").data, ("SameSite=Lax").data] := by
  refine ⟨?_, rfl, rfl, rfl, rfl⟩
  simp [Cookie.create, h, jsStrOptFails, jsOrStr, jsOrInt, jsOrNaN, defaultCookie]

/-- Witness for C10 at `name = "n"`, `value = "v"`. -/
theorem claim_C10_witness :
    Cookie.create { name := "n", value := "v", maxAge := some 0, expires := some 0 } =
      .ok (defaultCookie ("n") ("v")) ∧
    (defaultCookie ("n") ("v")).maxAge = none ∧
    (defaultCookie ("n") ("v")).expires = -1 ∧
    (defaultCookie ("n") ("v")).hasExpiry = false ∧
    Cookie.toStringParts (fun _ => "") (defaultCookie ("n") ("v")) =
      [("n").data ++ '=' :: encodeURIComponentL ("v").data,
       ("Path=/").data, ("SameSite=Lax").data] :=
  claim_C10 (fun _ => "") ("n") ("v") (by decide)

/-! ## Claim C4: lookup precedence of `modified` over `original` -/

/-- Claim C4 (confirmed).  `get(name)` consults the modified sequence
first: when a modified entry with the name exists, `get` returns its
value unless that value is empty, in which case `get` is absent with no
fallback to `original`; concretely, after `new CookieMap("a=1")` and
`set("a","2")`, `get("a")` is `"2"` and `toJSON()` is `{a: "2"}`. -/
theorem claim_C4 (m : CookieMap) (n : String) (c : Cookie)
    (h : m.modifiedCookies.find? (fun ck => ck.name == n) = some c) :
    m.get n = (if c.value = "" then none else some c.value) ∧
    (applyOp (CookieMap.ofString ("a=1")) (MapOp.setPair ("a") ("2"))).get ("a") =
      some ("2") ∧
    (applyOp (CookieMap.ofString ("a=1")) (MapOp.setPair ("a") ("2"))).toJSON =
      [("a", "2")] := by
  refine ⟨?_, by decide, by decide⟩
  simp only [CookieMap.get, h]

/-- Witness for C4 on the collection built from `"a=1"` then
`set("a","2")`. -/
theorem claim_C4_witness :
    (applyOp (CookieMap.ofString ("a=1")) (MapOp.setPair ("a") ("2"))).get ("a") =
      (if (defaultCookie ("a") ("2")).value = "" then none
       else some (defaultCookie ("a") ("2")).value) ∧
    (applyOp (CookieMap.ofString ("a=1")) (MapOp.setPair ("a") ("2"))).get ("a") =
      some ("2") ∧
    (applyOp (CookieMap.ofString ("a=1")) (MapOp.setPair ("a") ("2"))).toJSON =
      [("a", "2")] :=
  claim_C4 (applyOp (CookieMap.ofString ("a=1")) (MapOp.setPair ("a") ("2")))
    ("a") (defaultCookie ("a") ("2")) (by decide)

/-! ## Claim C5: delete semantics -/

/-- Claim C5 (confirmed).  `delete` returns whether the name was
previously present; on the collection built from `"a=1"`,
`delete("a")` returns true, afterwards `has("a")` is false and
`getAllChanges()` holds exactly one cookie with name `"a"`, empty
value and `expires = 1`; `delete` of an absent name returns false, and
the options form uses the supplied domain/path (defaults `""`, `"/"`)
with all flags false/default. -/
theorem claim_C5 (m : CookieMap) (opts : CookieStoreDeleteOptions)
    (b : Bool) (m2 : CookieMap) (h : m.deleteOpts opts = (.ok b, m2)) :
    b = m.has opts.name ∧
    ((CookieMap.ofString ("a=1")).deleteName ("a")).1 = .ok true ∧
    ((CookieMap.ofString ("a=1")).deleteName ("a")).2.has ("a") = false ∧
    ((CookieMap.ofString ("a=1")).deleteName ("a")).2.getAllChanges =
      [{ name := "a", value := "", domain := "", path := "/", expires := 1,
         secure := false, sameSite := CookieSameSite.Lax, httpOnly := false,
         maxAge := none, partitioned := false }] ∧
    ((CookieMap.ofString ("a=1")).deleteName ("b")).1 = .ok false ∧
    ((CookieMap.ofString ("a=1")).deleteOpts
        { name := "a", domain := some ("d.com"), path := some ("/p") }).2.getAllChanges =
      [{ name := "a", value := "", domain := "d.com", path := "/p", expires := 1,
         secure := false, sameSite := CookieSameSite.Lax, httpOnly := false,
         maxAge := none, partitioned := false }] := by
  refine ⟨?_, by rfl, by decide, by decide, by rfl, by decide⟩
  cases hc : Cookie.create
      { name := opts.name, value := "",
        domain := some (opts.domain.getD ""),
        path := some (opts.path.getD "/"),
        expires := some 1, secure := some false,
        sameSite := some CookieSameSite.Lax, httpOnly := some false,
        maxAge := none, partitioned := some false } with
  | error e => simp [CookieMap.deleteOpts, hc] at h
  | ok dc =>
    simp [CookieMap.deleteOpts, hc] at h
    exact h.1.symm

/-- Witness for C5 on the collection built from `"a=1"`. -/
theorem claim_C5_witness :
    true = (CookieMap.ofString ("a=1")).has ("a") ∧
    ((CookieMap.ofString ("a=1")).deleteName ("a")).1 = .ok true ∧
    ((CookieMap.ofString ("a=1")).deleteName ("a")).2.has ("a") = false ∧
    ((CookieMap.ofString ("a=1")).deleteName ("a")).2.getAllChanges =
      [{ name := "a", value := "", domain := "", path := "/", expires := 1,
         secure := false, sameSite := CookieSameSite.Lax, httpOnly := false,
         maxAge := none, partitioned := false }] ∧
    ((CookieMap.ofString ("a=1")).deleteName ("b")).1 = .ok false ∧
    ((CookieMap.ofString ("a=1")).deleteOpts
        { name := "a", domain := some ("d.com"), path := some ("/p") }).2.getAllChanges =
      [{ name := "a", value := "", domain := "d.com", path := "/p", expires := 1,
         secure := false, sameSite := CookieSameSite.Lax, httpOnly := false,
         maxAge := none, partitioned := false }] :=
  claim_C5 (CookieMap.ofString ("a=1")) { name := "a" } true
    { originalCookies := [],
      modifiedCookies :=
        [{ name := "a", value := "", domain := "", path := "/", expires := 1,
           secure := false, sameSite := CookieSameSite.Lax, httpOnly := false,
           maxAge := none, partitioned := false }] }
    (by rfl)

/-! ## Claim C2: the at-most-one-entry-per-name invariant -/

/-- Inversion for the validating constructor: a successful `create`
yields exactly the record with the `||`-defaulted fields. -/
theorem create_ok_eq (o : CookieOptions) (c : Cookie)
    (h : Cookie.create o = .ok c) :
    c = { name := o.name, value := o.value, domain := jsOrStr o.domain "",
          path := jsOrStr o.path "/", expires := jsOrInt o.expires (-1),
          secure := o.secure.getD false,
          sameSite := o.sameSite.getD CookieSameSite.Lax,
          httpOnly := o.httpOnly.getD false, maxAge := jsOrNaN o.maxAge,
          partitioned := o.partitioned.getD false } := by
  unfold Cookie.create at h
  split_ifs at h
  exact (Except.ok.injEq _ _ ▸ congrArg id h : _ = _).symm ▸ by
    cases h
    rfl

/-- Mapping after filtering on the mapped value commutes with
filtering the mapped list. -/
theorem map_filter_ne {α : Type} (f : α → String) (n : String) (l : List α) :
    (l.filter (fun x => f x != n)).map f = (l.map f).filter (fun s => s != n) := by
  induction l with
  | nil => rfl
  | cons x xs ih =>
    by_cases hx : f x = n
    · simp [List.filter_cons, hx, ih]
    · simp [List.filter_cons, hx, ih]

/-- `removeInternal` filters the name out of the combined name list. -/
theorem namesOf_removeInternal (m : CookieMap) (n : String) :
    namesOf (m.removeInternal n) = (namesOf m).filter (fun s => s != n) := by
  simp [namesOf, CookieMap.removeInternal, List.filter_append, map_filter_ne]

/-- `set(cookie)` filters the name out and appends it once at the end. -/
theorem namesOf_setCookie (m : CookieMap) (c : Cookie) :
    namesOf (m.setCookie c) =
      (namesOf m).filter (fun s => s != c.name) ++ [c.name] := by
  simp [namesOf, CookieMap.setCookie, CookieMap.removeInternal,
    List.filter_append, map_filter_ne, List.append_assoc]

/-- Appending a name to a list filtered free of it keeps distinctness. -/
theorem nodup_filter_concat (l : List String) (n : String) (h : l.Nodup) :
    ((l.filter (fun s => s != n)) ++ [n]).Nodup := by
  rw [List.nodup_append]
  refine ⟨h.filter _, List.nodup_singleton n, ?_⟩
  intro s hs hmem
  rcases List.mem_filter.mp hs with ⟨-, hne⟩
  simp only [List.mem_singleton] at hmem
  subst hmem
  simp at hne

/-- The append form of `delete`'s ok branch keeps distinctness. -/
theorem nodup_names_remove_append (m : CookieMap) (n : String) (c : Cookie)
    (hcn : c.name = n) (h : (namesOf m).Nodup) :
    (namesOf { m.removeInternal n with
        modifiedCookies := (m.removeInternal n).modifiedCookies ++ [c] }).Nodup := by
  have : ({ m.removeInternal n with
      modifiedCookies := (m.removeInternal n).modifiedCookies ++ [c] } : CookieMap) =
      m.setCookie c := by
    simp [CookieMap.setCookie, CookieMap.removeInternal, hcn]
  rw [this, namesOf_setCookie]
  exact nodup_filter_concat _ _ h

/-- Every public mutating operation preserves distinctness of the
combined name list. -/
theorem nodup_applyOp (m : CookieMap) (op : MapOp)
    (h : (namesOf m).Nodup) : (namesOf (applyOp m op)).Nodup := by
  cases op with
  | setPair n v =>
    simp only [applyOp, CookieMap.set]
    cases hc : Cookie.create { name := n, value := v } with
    | error e => exact h
    | ok c =>
      rw [namesOf_setCookie]
      exact nodup_filter_concat _ _ h
  | setCookie c =>
    rw [show applyOp m (.setCookie c) = m.setCookie c from rfl, namesOf_setCookie]
    exact nodup_filter_concat _ _ h
  | del opts =>
    simp only [applyOp, CookieMap.deleteOpts]
    split
    · next e hc =>
      rw [namesOf_removeInternal]
      exact h.filter _
    · next dc hc =>
      exact nodup_names_remove_append m opts.name dc
        (by rw [create_ok_eq _ _ hc]) h
  | clearAll =>
    simp [applyOp, CookieMap.clear, namesOf]

/-- Counterexample to claim C2 as stated: constructing from the header
string `"a=1; a=2"`, which repeats a name, yields two original entries
named `"a"`, so the name occurs twice across `original ∪ modified`. -/
theorem claim_C2_counterexample :
    (CookieMap.ofString ("a=1; a=2")).originalCookies =
      [{ key := "a", value := "1" }, { key := "a", value := "2" }] ∧
    ¬ (namesOf (CookieMap.ofString ("a=1; a=2"))).Nodup := by
  exact ⟨by decide, by decide⟩

/-- Claim C2 as amended (the construction phase does not deduplicate, so
the invariant only holds when it holds at construction): starting from
any collection whose combined name list is duplicate-free — e.g. one
built from a record, or from a header string or pair list without
repeated names — every sequence of public `set`/`delete`/`clear` calls
preserves the invariant that each cookie name occurs at most once
across `original ∪ modified`. -/
theorem claim_C2 (m : CookieMap) (h : (namesOf m).Nodup) (ops : List MapOp) :
    (namesOf (ops.foldl applyOp m)).Nodup := by
  induction ops generalizing m with
  | nil => exact h
  | cons op ops ih => exact ih _ (nodup_applyOp m op h)

/-- Witness for the amended C2 on `"a=1"` with a set and a delete. -/
theorem claim_C2_witness :
    (namesOf (([MapOp.setPair ("a") ("2"), MapOp.del { name := "a" },
        MapOp.setPair ("b") ("3")]).foldl applyOp
      (CookieMap.ofString ("a=1")))).Nodup :=
  claim_C2 (CookieMap.ofString ("a=1")) (by decide) _

/-! ## Claim C7: the percent-decoding gate -/

/-- An accumulate-or-skip fold is an accumulator prefix plus a
`filterMap`. -/
theorem foldl_acc_toList {α β : Type} (f : α → Option β)
    (step : List β → α → List β)
    (hstep : ∀ acc x, step acc x = acc ++ (f x).toList) :
    ∀ (l : List α) (acc : List β), l.foldl step acc = acc ++ l.filterMap f := by
  intro l
  induction l with
  | nil => simp
  | cons x xs ih =>
    intro acc
    rw [List.foldl_cons, hstep, ih, List.filterMap_cons]
    cases f x <;> simp

/-- Decomposition of the constructor's string parsing: it is exactly the
raw split/trim/skip extraction followed by the per-pair decode step,
whose gate is whether the whole input contains a `%`. -/
theorem parseFromCookieString_eq_raw (s : String) :
    parseFromCookieString s =
      (rawPairsOf s).map (fun p => decodePair (s.data.contains '%') p.1 p.2) := by
  unfold parseFromCookieString rawPairsOf
  by_cases htrim : jsTrim s.data = []
  · simp [htrim]
  · rw [if_neg htrim, if_neg htrim]
    rw [foldl_acc_toList (segStep (s.data.contains '%'))
      _ (fun acc pair => ?_) _ _]
    rw [foldl_acc_toList segStepRaw _ (fun acc pair => ?_) _ _]
    · rw [List.nil_append, List.nil_append, List.map_filterMap]
      apply List.filterMap_congr
      intro pair _
      unfold segStep segStepRaw
      cases indexOfFirst '=' pair with
      | none => rfl
      | some i =>
        by_cases hn : jsTrim (pair.take i) = [] <;> simp [hn]
    · unfold segStepRaw
      cases hidx : indexOfFirst '=' pair with
      | none => simp
      | some i =>
        by_cases hn : jsTrim (pair.take i) = [] <;> simp [hn]
    · unfold segStep
      cases hidx : indexOfFirst '=' pair with
      | none => simp
      | some i =>
        by_cases hn : jsTrim (pair.take i) = [] <;> simp [hn]

/-- Claim C7 (confirmed).  Percent-decoding of names and values is
attempted for every pair exactly when the whole input contains a `%`
anywhere; a pair whose decode fails falls back to its raw trimmed name
and value (the constructor cannot throw here); concretely,
`new CookieMap("name=hello%20world").get("name")` is `"hello world"`,
and `"name=100%;x=1"` keeps the raw text for the failing pair. -/
theorem claim_C7 (s : String) (hp : Bool) (n v : List Char)
    (h : decodeURIComponentL n = none ∨ decodeURIComponentL v = none) :
    decodePair hp n v = { key := ⟨n⟩, value := ⟨v⟩ } ∧
    parseFromCookieString s =
      (rawPairsOf s).map (fun p => decodePair (s.data.contains '%') p.1 p.2) ∧
    (s.data.contains '%' = false →
      parseFromCookieString s =
        (rawPairsOf s).map (fun p => { key := ⟨p.1⟩, value := ⟨p.2⟩ })) ∧
    (CookieMap.ofString ("name=hello%20world")).get ("name") =
      some ("hello world") ∧
    (CookieMap.ofString ("name=100%;x=1")).originalCookies =
      [{ key := "name", value := "100%" }, { key := "x", value := "1" }] := by
  refine ⟨?_, parseFromCookieString_eq_raw s, ?_, by decide, by decide⟩
  · unfold decodePair
    cases hp
    · rfl
    · rcases h with h | h <;> rw [h]
      · rfl
      · cases decodeURIComponentL n <;> rfl
  · intro hpc
    rw [parseFromCookieString_eq_raw s, hpc]
    rfl

/-- Witness for C7 on the failing pair of `"name=100%;x=1"`. -/
theorem claim_C7_witness :
    decodePair true (("100%").data) (("1").data) =
      { key := ⟨("100%").data⟩, value := ⟨("1").data⟩ } ∧
    parseFromCookieString ("name=100%;x=1") =
      (rawPairsOf ("name=100%;x=1")).map
        (fun p => decodePair ((("name=100%;x=1") : String).data.contains '%') p.1 p.2) ∧
    ((("name=100%;x=1") : String).data.contains '%' = false →
      parseFromCookieString ("name=100%;x=1") =
        (rawPairsOf ("name=100%;x=1")).map
          (fun p => { key := ⟨p.1⟩, value := ⟨p.2⟩ })) ∧
    (CookieMap.ofString ("name=hello%20world")).get ("name") =
      some ("hello world") ∧
    (CookieMap.ofString ("name=100%;x=1")).originalCookies =
      [{ key := "name", value := "100%" }, { key := "x", value := "1" }] :=
  claim_C7 ("name=100%;x=1") true (("100%").data) (("1").data)
    (Or.inl (by decide))

/-! ## Claim C6: the exact failure condition of `Cookie.parse` -/

/-- Unfolding of `Cookie.parse` into its guard cascade (the `let` of
the source is zeta-reduced). -/
theorem parse_eq_cases (dp : String → Option Int) (s : String) :
    Cookie.parse dp s =
      (if s.data.length < 2 then .error ("Invalid cookie string: empty")
       else
         match indexOfFirst '=' (cookiePairOf s.data) with
         | none => .error ("Invalid cookie string: no equals sign found")
         | some i =>
           if jsTrim ((cookiePairOf s.data).take i) = [] then
             .error ("Invalid cookie string: name cannot be empty")
           else Cookie.create (parseOptionsAt dp s.data i)) := rfl

/-- The constructor fails exactly on the three character-class checks. -/
theorem create_error_iff (o : CookieOptions) :
    (∃ e, Cookie.create o = .error e) ↔ createFailsB o = true := by
  unfold Cookie.create createFailsB
  split_ifs with h1 h2 h3 <;> simp_all

/-- Claim C6 (confirmed).  `Cookie.parse` throws exactly when the input
is shorter than 2 characters, or the cookie-pair has no `=`, or the
trimmed name before the first `=` is empty, or the computed
name/path/domain fails the validating constructor's character-class
checks; every other input yields a cookie, and the error is the
constructor's own (no internal recovery). -/
theorem claim_C6 (dp : String → Option Int) (s : String) :
    (∃ e, Cookie.parse dp s = .error e) ↔ parseFails dp s := by
  rw [parse_eq_cases]
  unfold parseFails
  by_cases h1 : s.data.length < 2
  · rw [if_pos h1]
    exact iff_of_true ⟨_, rfl⟩ (Or.inl h1)
  · rw [if_neg h1]
    cases hidx : indexOfFirst '=' (cookiePairOf s.data) with
    | none =>
      simp only [hidx]
      exact iff_of_true ⟨_, rfl⟩ (Or.inr (Or.inl trivial))
    | some i =>
      simp only [hidx]
      by_cases h3 : jsTrim ((cookiePairOf s.data).take i) = []
      · rw [if_pos h3]
        refine iff_of_true ⟨_, rfl⟩ (Or.inr (Or.inr (Or.inl ⟨i, rfl, h3⟩)))
      · rw [if_neg h3]
        rw [create_error_iff]
        constructor
        · intro hc
          exact Or.inr (Or.inr (Or.inr ⟨i, rfl, hc⟩))
        · intro hc
          rcases hc with hc | hc | hc | hc
          · exact absurd hc h1
          · cases hc
          · rcases hc with ⟨j, hj, hj2⟩
            cases hj
            exact absurd hj2 h3
          · rcases hc with ⟨j, hj, hj2⟩
            cases hj
            exact hj2

/-! ## Claim C8: domain validation and parse-time lowercasing -/

/-- Character equality is equality of code points. -/
theorem char_eq_iff_toNat (a b : Char) : a = b ↔ a.toNat = b.toNat := by
  constructor
  · rintro rfl; rfl
  · exact fun h => Char.eq_of_val_eq (UInt32.ext h)

/-- Character order is the order of code points. -/
theorem char_le_iff_toNat (a b : Char) : a ≤ b ↔ a.toNat ≤ b.toNat := by
  rw [Char.le_def]
  exact ⟨fun h => h, fun h => h⟩

/-- Code point of `Char.ofNat` below the surrogate range. -/
theorem toNat_ofNat_lt (n : Nat) (h : n < 0xd800) : (Char.ofNat n).toNat = n := by
  simp [Char.ofNat, Nat.isValidChar, h, Char.ofNatAux, Char.toNat]
  rfl

/-- The domain character class, spelt as character ranges. -/
theorem validDomainChar_iff (c : Char) :
    isValidCharacterInCookieDomain c = true ↔
      (('a' ≤ c ∧ c ≤ 'z') ∨ ('0' ≤ c ∧ c ≤ '9') ∨ c = '.' ∨ c = '-') := by
  unfold isValidCharacterInCookieDomain
  simp only [Bool.or_eq_true, Bool.and_eq_true, decide_eq_true_eq,
    char_le_iff_toNat, char_eq_iff_toNat]
  have ha : ('a').toNat = 97 := rfl
  have hz : ('z').toNat = 122 := rfl
  have h0 : ('0').toNat = 48 := rfl
  have h9 : ('9').toNat = 57 := rfl
  have hdot : ('.').toNat = 46 := rfl
  have hdash : ('-').toNat = 45 := rfl
  rw [ha, hz, h0, h9, hdot, hdash]
  tauto

/-- Lowercasing a character never produces an uppercase letter. -/
theorem upper_not_in_lower (c : Char) :
    ¬ ('A' ≤ jsToLowerChar c ∧ jsToLowerChar c ≤ 'Z') := by
  unfold jsToLowerChar
  by_cases h : ('A' ≤ c && c ≤ 'Z') = true
  · rw [if_pos h]
    simp only [Bool.and_eq_true, decide_eq_true_eq] at h
    have hZ : c.toNat ≤ 90 := by
      have := (char_le_iff_toNat c ('Z')).mp h.2
      simpa using this
    have hA : 65 ≤ c.toNat := by
      have := (char_le_iff_toNat ('A') c).mp h.1
      simpa using this
    have hlt : c.toNat + 32 < 0xd800 := by omega
    rintro ⟨hc1, hc2⟩
    rw [char_le_iff_toNat] at hc1 hc2
    rw [toNat_ofNat_lt _ hlt] at hc1 hc2
    have hA65 : ('A').toNat = 65 := rfl
    have hZ90 : ('Z').toNat = 90 := rfl
    omega
  · rw [if_neg h]
    simp only [Bool.and_eq_true, decide_eq_true_eq] at h
    exact h

/-- Every character of a lowercased string is non-uppercase. -/
theorem noUpper_jsToLower (l : List Char) :
    ∀ ch ∈ jsToLower l, ¬ ('A' ≤ ch ∧ ch ≤ 'Z') := by
  intro ch hch
  rcases List.mem_map.mp hch with ⟨x, -, rfl⟩
  exact upper_not_in_lower x

/-- The attribute switch either leaves the domain unchanged or writes
the lowercased attribute value (the only write in the `domain` case). -/
theorem processAttrCore_domain_cases (dp : String → Option Int)
    (st : AttrState) (an av : List Char) :
    (processAttrCore dp st an av).domain = st.domain ∨
    (processAttrCore dp st an av).domain = ⟨jsToLower av⟩ := by
  unfold processAttrCore
  by_cases h1 : an = ("domain").data
  · rw [if_pos h1]
    by_cases h1b : av ≠ []
    · rw [if_pos h1b]; exact Or.inr rfl
    · rw [if_neg h1b]; exact Or.inl rfl
  · rw [if_neg h1]
    by_cases h2 : an = ("path").data
    · rw [if_pos h2]
      by_cases h2b : av.head? = some '/'
      · rw [if_pos h2b]; exact Or.inl rfl
      · rw [if_neg h2b]; exact Or.inl rfl
    · rw [if_neg h2]
      by_cases h3 : an = ("expires").data
      · rw [if_pos h3]
        by_cases h3b : (!st.hasMaxAge && decide (av ≠ [])) = true
        · rw [if_pos h3b]
          cases hdp : dp ⟨av⟩ <;> exact Or.inl rfl
        · rw [if_neg h3b]; exact Or.inl rfl
      · rw [if_neg h3]
        by_cases h4 : an = ("max-age").data
        · rw [if_pos h4]
          cases hmi : jsParseInt av <;> exact Or.inl rfl
        · rw [if_neg h4]
          by_cases h5 : an = ("secure").data
          · rw [if_pos h5]; exact Or.inl rfl
          · rw [if_neg h5]
            by_cases h6 : an = ("httponly").data
            · rw [if_pos h6]; exact Or.inl rfl
            · rw [if_neg h6]
              by_cases h7 : an = ("partitioned").data
              · rw [if_pos h7]; exact Or.inl rfl
              · rw [if_neg h7]
                by_cases h8 : an = ("samesite").data
                · rw [if_pos h8]
                  by_cases h8a : jsToLower av = ("strict").data
                  · rw [if_pos h8a]; exact Or.inl rfl
                  · rw [if_neg h8a]
                    by_cases h8b : jsToLower av = ("lax").data
                    · rw [if_pos h8b]; exact Or.inl rfl
                    · rw [if_neg h8b]
                      by_cases h8c : jsToLower av = ("none").data
                      · rw [if_pos h8c]; exact Or.inl rfl
                      · rw [if_neg h8c]; exact Or.inl rfl
                · rw [if_neg h8]; exact Or.inl rfl

/-- One attribute-loop step keeps the domain free of uppercase
letters. -/
theorem processAttribute_domain_noUpper (dp : String → Option Int)
    (st : AttrState) (tok : List Char)
    (h : ∀ ch ∈ st.domain.data, ¬ ('A' ≤ ch ∧ ch ≤ 'Z')) :
    ∀ ch ∈ (processAttribute dp st tok).domain.data,
      ¬ ('A' ≤ ch ∧ ch ≤ 'Z') := by
  unfold processAttribute
  rcases processAttrCore_domain_cases dp st (attrNameOf tok)
    (attrValueOf tok) with hc | hc <;> rw [hc]
  · exact h
  · exact noUpper_jsToLower _

/-- The attribute loop produces a domain with no uppercase letters. -/
theorem parseAttrState_domain_noUpper (dp : String → Option Int)
    (l : List Char) :
    ∀ ch ∈ (parseAttrState dp l).domain.data, ¬ ('A' ≤ ch ∧ ch ≤ 'Z') := by
  unfold parseAttrState
  cases attributesOf l with
  | none => intro ch hch; simp [initAttrState] at hch
  | some attrs =>
    have key : ∀ (toks : List (List Char)) (st : AttrState),
        (∀ ch ∈ st.domain.data, ¬ ('A' ≤ ch ∧ ch ≤ 'Z')) →
        ∀ ch ∈ (toks.foldl (processAttribute dp) st).domain.data,
          ¬ ('A' ≤ ch ∧ ch ≤ 'Z') := by
      intro toks
      induction toks with
      | nil => exact fun st h => h
      | cons t ts ih =>
        intro st h
        exact ih _ (processAttribute_domain_noUpper dp st t h)
    exact key _ _ (by intro ch hch; simp [initAttrState] at hch)

/-- A successful parse stores the `||`-defaulted attribute-loop domain. -/
theorem parse_ok_domain (dp : String → Option Int) (s : String) (c : Cookie)
    (h : Cookie.parse dp s = .ok c) :
    c.domain = jsOrStr (some (parseAttrState dp s.data).domain) "" := by
  rw [parse_eq_cases] at h
  split at h
  · exact absurd h (by simp)
  · split at h
    · exact absurd h (by simp)
    · split at h
      · exact absurd h (by simp)
      · rw [create_ok_eq _ _ h]
        rfl

/-- Claim C8 (confirmed).  `isValidCookieDomain` accepts exactly the
strings whose characters are `a-z`, `0-9`, `.` or `-` (so the empty
domain is valid and `"EXAMPLE.com"` is not), while `Cookie.parse`
lower-cases any non-empty Domain attribute value before construction,
so the domain reaching the validator never contains an uppercase
letter — a parse can never fail solely because of uppercase in the
Domain attribute. -/
theorem claim_C8 (dp : String → Option Int) (s : String) (c : Cookie)
    (h : Cookie.parse dp s = .ok c) :
    (∀ d : String, (isValidCookieDomain d = true ↔
      ∀ ch ∈ d.data,
        (('a' ≤ ch ∧ ch ≤ 'z') ∨ ('0' ≤ ch ∧ ch ≤ '9') ∨ ch = '.' ∨ ch = '-'))) ∧
    isValidCookieDomain ("") = true ∧
    isValidCookieDomain ("EXAMPLE.com") = false ∧
    (∀ ch ∈ c.domain.data, ¬ ('A' ≤ ch ∧ ch ≤ 'Z')) := by
  refine ⟨?_, by decide, by decide, ?_⟩
  · intro d
    unfold isValidCookieDomain
    rw [List.all_eq_true]
    exact forall_congr' fun ch => forall_congr' fun _ => validDomainChar_iff ch
  · rw [parse_ok_domain dp s c h]
    have hj : jsOrStr (some (parseAttrState dp s.data).domain) "" =
        (if (parseAttrState dp s.data).domain = "" then ""
         else (parseAttrState dp s.data).domain) := rfl
    rw [hj]
    by_cases hd : (parseAttrState dp s.data).domain = ""
    · rw [if_pos hd]
      intro ch hch
      simp at hch
    · rw [if_neg hd]
      exact parseAttrState_domain_noUpper dp s.data

/-- Witness for C8 on `"a=b; Domain=EX.com"`. -/
theorem claim_C8_witness :
    (∀ d : String, (isValidCookieDomain d = true ↔
      ∀ ch ∈ d.data,
        (('a' ≤ ch ∧ ch ≤ 'z') ∨ ('0' ≤ ch ∧ ch ≤ '9') ∨ ch = '.' ∨ ch = '-'))) ∧
    isValidCookieDomain ("") = true ∧
    isValidCookieDomain ("EXAMPLE.com") = false ∧
    (∀ ch ∈ cookieC8.domain.data, ¬ ('A' ≤ ch ∧ ch ≤ 'Z')) :=
  claim_C8 (fun _ => none) ("a=b; Domain=EX.com") cookieC8 (by rfl)

/-! ## Claim C9: clone independence (heap model) -/

/-- Reading an appended heap below the old length is unchanged. -/
theorem getD_append_left {α : Type} (l1 l2 : List α) (i : Nat) (d : α)
    (h : i < l1.length) : (l1 ++ l2).getD i d = l1.getD i d := by
  simp [List.getD_eq_getElem?_getD, List.getElem?_append_left h]

/-- Reading the freshly appended cell. -/
theorem getD_append_self {α : Type} (l : List α) (a d : α) :
    (l ++ [a]).getD l.length d = a := by
  simp [List.getD_eq_getElem?_getD, List.getElem?_concat_length]

/-- Writing the freshly appended cell. -/
theorem set_append_len {α : Type} (l : List α) (b x : α) :
    (l ++ [b]).set l.length x = l ++ [x] := by
  induction l with
  | nil => rfl
  | cons y ys ih => simp [List.set, ih]

theorem heapExtends_refl (h : CookieHeap) : HeapExtends h h :=
  ⟨le_rfl, le_rfl, fun _ _ => rfl, fun _ _ => rfl⟩

theorem heapExtends_trans {h1 h2 h3 : CookieHeap}
    (a : HeapExtends h1 h2) (b : HeapExtends h2 h3) : HeapExtends h1 h3 := by
  refine ⟨a.1.trans b.1, a.2.1.trans b.2.1, ?_, ?_⟩
  · intro i hi
    rw [b.2.2.1 i (lt_of_lt_of_le hi a.1), a.2.2.1 i hi]
  · intro i hi
    rw [b.2.2.2 i (lt_of_lt_of_le hi a.2.1), a.2.2.2 i hi]

/-- A heap whose two pools are extended by appending is an extension. -/
theorem heapExtends_append (h h2 : CookieHeap)
    (as : List (List KeyValuePair)) (bs : List (List Cookie))
    (hk : h2.kvArrs = h.kvArrs ++ as) (hc : h2.ckArrs = h.ckArrs ++ bs) :
    HeapExtends h h2 := by
  refine ⟨by rw [hk, List.length_append]; omega,
    by rw [hc, List.length_append]; omega, ?_, ?_⟩
  · intro i hi
    unfold CookieHeap.getKv
    rw [hk]
    exact getD_append_left _ _ _ _ hi
  · intro i hi
    unfold CookieHeap.getCk
    rw [hc]
    exact getD_append_left _ _ _ _ hi

/-- The heap after `removeInternal`: two freshly appended filter
results. -/
theorem removeInternalH_heap (h : CookieHeap) (r : CookieMapRef) (n : String) :
    (removeInternalH h r n).1 =
      { kvArrs := h.kvArrs ++ [(h.getKv r.origId).filter (fun kv => kv.key != n)],
        ckArrs := h.ckArrs ++ [(h.getCk r.modId).filter (fun c => c.name != n)] } :=
  rfl

/-- The object after `removeInternal` points at the two fresh arrays. -/
theorem removeInternalH_ref (h : CookieHeap) (r : CookieMapRef) (n : String) :
    (removeInternalH h r n).2 =
      { origId := h.kvArrs.length, modId := h.ckArrs.length } :=
  rfl

/-- The push following `removeInternal` lands in the array allocated by
the removal itself, so the whole step only appends to the heap. -/
theorem push_remove_heap (h : CookieHeap) (r : CookieMapRef) (n : String)
    (c : Cookie) :
    pushCkH (removeInternalH h r n).1 (removeInternalH h r n).2.modId c =
      { kvArrs := h.kvArrs ++ [(h.getKv r.origId).filter (fun kv => kv.key != n)],
        ckArrs := h.ckArrs ++
          [((h.getCk r.modId).filter (fun ck => ck.name != n)) ++ [c]] } := by
  rw [removeInternalH_heap, removeInternalH_ref]
  unfold pushCkH CookieHeap.getCk
  simp only []
  rw [getD_append_self, set_append_len]

/-- Every public mutating operation only appends to the heap: the
arrays existing before the call keep their contents. -/
theorem applyOpH_extends (p : CookieHeap × CookieMapRef) (op : MapOp) :
    HeapExtends p.1 (applyOpH p op).1 := by
  cases op with
  | setPair n v =>
    show HeapExtends p.1 (setH p.1 p.2 n v).1
    unfold setH
    cases Cookie.create { name := n, value := v } with
    | error e => exact heapExtends_refl _
    | ok c =>
      show HeapExtends p.1 (pushCkH (removeInternalH p.1 p.2 c.name).1
        (removeInternalH p.1 p.2 c.name).2.modId c)
      rw [push_remove_heap]
      exact heapExtends_append _ _ _ _ rfl rfl
  | setCookie c =>
    show HeapExtends p.1 (pushCkH (removeInternalH p.1 p.2 c.name).1
      (removeInternalH p.1 p.2 c.name).2.modId c)
    rw [push_remove_heap]
    exact heapExtends_append _ _ _ _ rfl rfl
  | del opts =>
    show HeapExtends p.1 (deleteH p.1 p.2 opts).1
    unfold deleteH
    cases Cookie.create
        { name := opts.name, value := "",
          domain := some (opts.domain.getD ""),
          path := some (opts.path.getD "/"),
          expires := some 1, secure := some false,
          sameSite := some CookieSameSite.Lax, httpOnly := some false,
          maxAge := none, partitioned := some false } with
    | error e =>
      show HeapExtends p.1 (removeInternalH p.1 p.2 opts.name).1
      rw [removeInternalH_heap]
      exact heapExtends_append _ _ _ _ rfl rfl
    | ok dc =>
      show HeapExtends p.1
        (pushCkH (removeInternalH p.1 p.2 opts.name).1
          (removeInternalH p.1 p.2 opts.name).2.modId dc)
      rw [push_remove_heap]
      exact heapExtends_append _ _ _ _ rfl rfl
  | clearAll =>
    show HeapExtends p.1 (clearH p.1 p.2).1
    exact heapExtends_append _ _ [[]] [[]] rfl rfl

/-- A call sequence only appends to the heap. -/
theorem runOpsH_extends (ops : List MapOp) (p : CookieHeap × CookieMapRef) :
    HeapExtends p.1 (runOpsH p ops).1 := by
  induction ops generalizing p with
  | nil => exact heapExtends_refl _
  | cons op ops ih =>
    exact heapExtends_trans (applyOpH_extends p op) (ih (applyOpH p op))

/-- Heap extension leaves every already-allocated object's functional
view unchanged. -/
theorem toPure_of_extends {h h2 : CookieHeap} {r : CookieMapRef}
    (hext : HeapExtends h h2) (hwf : WFRef h r) : toPure h2 r = toPure h r := by
  unfold toPure
  rw [hext.2.2.1 r.origId hwf.1, hext.2.2.2 r.modId hwf.2]

/-- Well-formedness survives heap extension. -/
theorem wf_of_extends {h h2 : CookieHeap} {r : CookieMapRef}
    (hwf : WFRef h r) (hext : HeapExtends h h2) : WFRef h2 r :=
  ⟨lt_of_lt_of_le hwf.1 hext.1, lt_of_lt_of_le hwf.2 hext.2.1⟩

/-- `clone()` only appends to the heap. -/
theorem heapExtends_cloneH (h : CookieHeap) (r : CookieMapRef) :
    HeapExtends h (cloneH h r).1 := by
  refine heapExtends_append h _ ([[]] ++ [(allocKv h []).1.getKv r.origId])
    ([[]] ++ [((allocCk (allocKv h []).1 []).1).getCk r.modId]) ?_ ?_
  · show ((h.kvArrs ++ [[]]) ++ [(allocKv h []).1.getKv r.origId]) = _
    rw [List.append_assoc]
  · show ((h.ckArrs ++ [[]]) ++ [((allocCk (allocKv h []).1 []).1).getCk r.modId]) = _
    rw [List.append_assoc]

/-- The clone points at fresh copies of the source object's arrays. -/
theorem cloneH_toPure (h : CookieHeap) (r : CookieMapRef) (hwf : WFRef h r) :
    toPure (cloneH h r).1 (cloneH h r).2 = toPure h r := by
  unfold toPure
  have ho : (cloneH h r).1.getKv (cloneH h r).2.origId = h.getKv r.origId := by
    show ((h.kvArrs ++ [[]]) ++ [(allocKv h []).1.getKv r.origId]).getD
        (h.kvArrs ++ [[]]).length [] = _
    rw [getD_append_self]
    show (h.kvArrs ++ [[]]).getD r.origId [] = _
    rw [getD_append_left _ _ _ _ hwf.1]
    rfl
  have hm : (cloneH h r).1.getCk (cloneH h r).2.modId = h.getCk r.modId := by
    show ((h.ckArrs ++ [[]]) ++ [((allocCk (allocKv h []).1 []).1).getCk r.modId]).getD
        (h.ckArrs ++ [[]]).length [] = _
    rw [getD_append_self]
    show (h.ckArrs ++ [[]]).getD r.modId [] = _
    rw [getD_append_left _ _ _ _ hwf.2]
    rfl
  rw [ho, hm]

/-- The clone's ids are allocated. -/
theorem cloneH_wf (h : CookieHeap) (r : CookieMapRef) :
    WFRef (cloneH h r).1 (cloneH h r).2 := by
  constructor
  · show (h.kvArrs ++ [[]]).length < ((h.kvArrs ++ [[]]) ++ [_]).length
    simp
  · show (h.ckArrs ++ [[]]).length < ((h.ckArrs ++ [[]]) ++ [_]).length
    simp

/-- Claim C9 (confirmed).  In the heap model of array identity,
`clone()` produces an object whose functional view (hence every
observation: `get`, `getAll`, `toJSON`, `getAllChanges`, `size`,
iteration — all functions of `toPure`) initially equals the source's,
and which shares no mutable state with it: any sequence of public
`set`/`delete`/`clear` calls applied to the clone leaves every
observation of the source unchanged, and any sequence applied to the
source leaves every observation of the clone unchanged. -/
theorem claim_C9 (h : CookieHeap) (r : CookieMapRef) (hwf : WFRef h r)
    (ops : List MapOp) :
    toPure (cloneH h r).1 (cloneH h r).2 = toPure h r ∧
    toPure (cloneH h r).1 r = toPure h r ∧
    toPure (runOpsH (cloneH h r) ops).1 r = toPure h r ∧
    toPure (runOpsH ((cloneH h r).1, r) ops).1 (cloneH h r).2 = toPure h r := by
  have hclone := heapExtends_cloneH h r
  have h1 := cloneH_toPure h r hwf
  have h2 : toPure (cloneH h r).1 r = toPure h r := toPure_of_extends hclone hwf
  have hwfr : WFRef (cloneH h r).1 r := wf_of_extends hwf hclone
  have hwfc : WFRef (cloneH h r).1 (cloneH h r).2 := cloneH_wf h r
  refine ⟨h1, h2, ?_, ?_⟩
  · have hext := runOpsH_extends ops (cloneH h r)
    rw [toPure_of_extends hext hwfr, h2]
  · have hext := runOpsH_extends ops ((cloneH h r).1, r)
    rw [toPure_of_extends hext hwfc, h1]

/-- Witness for C9: a one-cookie heap, cloning, then a set and a
delete on the clone. -/
theorem claim_C9_witness :
    (toPure (cloneH heapC9 refC9).1 (cloneH heapC9 refC9).2 =
      toPure heapC9 refC9 ∧
    toPure (cloneH heapC9 refC9).1 refC9 = toPure heapC9 refC9 ∧
    toPure (runOpsH (cloneH heapC9 refC9)
      [MapOp.setPair ("x") ("y"), MapOp.del { name := "a" }]).1 refC9 =
      toPure heapC9 refC9 ∧
    toPure (runOpsH ((cloneH heapC9 refC9).1, refC9)
      [MapOp.setPair ("x") ("y"), MapOp.del { name := "a" }]).1
      (cloneH heapC9 refC9).2 = toPure heapC9 refC9) :=
  claim_C9 heapC9 refC9 (⟨by decide, by decide⟩)
    [MapOp.setPair ("x") ("y"), MapOp.del { name := "a" }]

/-! ## String toolkit for the parse/serialize claims -/

theorem indexOfFirst_append_sep (c : Char) (xs ys : List Char)
    (h : c ∉ xs) : indexOfFirst c (xs ++ c :: ys) = some xs.length := by
  induction xs with
  | nil => simp [indexOfFirst]
  | cons x xs ih =>
    have hx : x ≠ c := fun he => h (he ▸ List.mem_cons_self x xs)
    have hxs : c ∉ xs := fun hm => h (List.mem_cons_of_mem x hm)
    simp [indexOfFirst, hx, ih hxs]

theorem drop_len_cons_append {α : Type} (xs : List α) (y : α) (ys : List α) :
    (xs ++ y :: ys).drop (xs.length + 1) = ys := by
  induction xs with
  | nil => rfl
  | cons x xs ih => simpa using ih

/-- Unfolding equation of `splitSep` on a cons cell. -/
theorem splitSep_cons (c x : Char) (l : List Char) :
    splitSep c (x :: l) =
      (if x = c then [] :: splitSep c l
       else
         match splitSep c l with
         | h :: t => (x :: h) :: t
         | [] => [[x]]) := rfl

theorem splitSep_ne_nil (c : Char) (l : List Char) : splitSep c l ≠ [] := by
  induction l with
  | nil => simp [splitSep]
  | cons x xs ih =>
    rw [splitSep_cons]
    by_cases hx : x = c
    · simp [hx]
    · rw [if_neg hx]
      cases hs : splitSep c xs with
      | nil => exact absurd hs ih
      | cons h t => simp

theorem splitSep_append_sep (c : Char) (xs ys : List Char) (h : c ∉ xs) :
    splitSep c (xs ++ c :: ys) = xs :: splitSep c ys := by
  induction xs with
  | nil => simp [splitSep_cons]
  | cons x xs ih =>
    have hx : x ≠ c := fun he => h (he ▸ List.mem_cons_self x xs)
    have hxs : c ∉ xs := fun hm => h (List.mem_cons_of_mem x hm)
    rw [List.cons_append, splitSep_cons, if_neg hx, ih hxs]

theorem splitSep_of_not_mem (c : Char) (l : List Char) (h : c ∉ l) :
    splitSep c l = [l] := by
  induction l with
  | nil => rfl
  | cons x xs ih =>
    have hx : x ≠ c := fun he => h (he ▸ List.mem_cons_self x xs)
    have hxs : c ∉ xs := fun hm => h (List.mem_cons_of_mem x hm)
    rw [splitSep_cons, if_neg hx, ih hxs]

/-- A list whose first and last characters are not whitespace is its own
trim. -/
theorem jsTrim_eq_self_of (l : List Char)
    (h1 : ∀ x, l.head? = some x → isJsWs x = false)
    (h2 : ∀ x, l.reverse.head? = some x → isJsWs x = false) :
    jsTrim l = l := by
  unfold jsTrim
  have hd : l.dropWhile isJsWs = l := by
    cases l with
    | nil => rfl
    | cons a as => simp [List.dropWhile_cons, h1 a rfl]
  rw [hd]
  have hr : l.reverse.dropWhile isJsWs = l.reverse := by
    cases hrev : l.reverse with
    | nil => rfl
    | cons y ys =>
      have := h2 y (by rw [hrev]; rfl)
      simp [List.dropWhile_cons, this]
  rw [hr, List.reverse_reverse]

/-- A list of non-whitespace characters is its own trim. -/
theorem jsTrim_eq_self_of_forall (l : List Char)
    (h : ∀ x ∈ l, isJsWs x = false) : jsTrim l = l := by
  refine jsTrim_eq_self_of l (fun x hx => h x ?_) (fun x hx => h x ?_)
  · cases l with
    | nil => cases hx
    | cons a as =>
      simp only [List.head?_cons, Option.some.injEq] at hx
      exact hx ▸ List.mem_cons_self a as
  · have : x ∈ l.reverse := by
      cases hrev : l.reverse with
      | nil => rw [hrev] at hx; cases hx
      | cons y ys =>
        rw [hrev] at hx
        simp only [List.head?_cons, Option.some.injEq] at hx
        exact hx ▸ List.mem_cons_self y ys
    exact List.mem_reverse.mp this

/-- Dropping the leading space of an attribute token. -/
theorem jsTrim_cons_ws (a : Char) (l : List Char) (ha : isJsWs a = true) :
    jsTrim (a :: l) = jsTrim l := by
  unfold jsTrim
  rw [List.dropWhile_cons, if_pos ha]

/-- The reversed head of a concatenation comes from the non-empty right
part. -/
theorem reverse_head_append (l1 d : List Char) (hd : d ≠ []) :
    (l1 ++ d).reverse.head? = d.reverse.head? := by
  rw [List.reverse_append]
  cases hrev : d.reverse with
  | nil => exact absurd (by simpa using hrev) hd
  | cons y ys => rfl

/-- Code points are below 0x110000. -/
theorem char_toNat_lt (c : Char) : c.toNat < 0x110000 := by
  rcases c.valid with h | h
  · exact lt_trans h (by omega)
  · exact h.2

/-- The whitespace class, as code points. -/
theorem isJsWs_iff (c : Char) :
    isJsWs c = true ↔
      (c.toNat = 32 ∨ c.toNat = 9 ∨ c.toNat = 10 ∨ c.toNat = 13 ∨
       c.toNat = 11 ∨ c.toNat = 12) := by
  have h1 : (' ').toNat = 32 := rfl
  have h2 : ('\t').toNat = 9 := rfl
  have h3 : ('\n').toNat = 10 := rfl
  have h4 : ('\r').toNat = 13 := rfl
  have h5 : ('\x0b').toNat = 11 := rfl
  have h6 : ('\x0c').toNat = 12 := rfl
  simp only [isJsWs, Bool.or_eq_true, decide_eq_true_eq, char_eq_iff_toNat,
    h1, h2, h3, h4, h5, h6]
  tauto

/-- The name character class, as code points. -/
theorem validNameChar_iff (c : Char) :
    isValidCharacterInCookieName c = true ↔
      ((0x21 ≤ c.toNat ∧ c.toNat ≤ 0x3a) ∨ c.toNat = 0x3c ∨
       (0x3e ≤ c.toNat ∧ c.toNat ≤ 0x7e)) := by
  simp [isValidCharacterInCookieName]
  tauto

/-- A valid name character is not whitespace, `;` or `=`. -/
theorem nameChar_safe (x : Char) (h : isValidCharacterInCookieName x = true) :
    isJsWs x = false ∧ x ≠ ';' ∧ x ≠ '=' := by
  rw [validNameChar_iff] at h
  have hsemi : (';').toNat = 59 := rfl
  have heq : ('=').toNat = 61 := rfl
  refine ⟨?_, ?_, ?_⟩
  · rw [← Bool.not_eq_true, isJsWs_iff]
    omega
  · rw [ne_eq, char_eq_iff_toNat, hsemi]
    omega
  · rw [ne_eq, char_eq_iff_toNat, heq]
    omega

/-- A valid cookie name is non-empty with safe characters. -/
theorem validName_chars (name : String) (h : isValidCookieName name = true) :
    name.data ≠ [] ∧
    ∀ x ∈ name.data, isJsWs x = false ∧ x ≠ ';' ∧ x ≠ '=' := by
  unfold isValidCookieName at h
  split_ifs at h with he
  refine ⟨fun hn => he (by simp [hn]), fun x hx => ?_⟩
  exact nameChar_safe x (by
    rw [List.all_eq_true] at h
    exact h x hx)

/-- The unescaped-character class of `encodeURIComponent`, as code
points. -/
theorem isUnreservedURI_iff (c : Char) :
    isUnreservedURI c = true ↔
      ((65 ≤ c.toNat ∧ c.toNat ≤ 90) ∨ (97 ≤ c.toNat ∧ c.toNat ≤ 122) ∨
       (48 ≤ c.toNat ∧ c.toNat ≤ 57) ∨ c.toNat = 45 ∨ c.toNat = 95 ∨
       c.toNat = 46 ∨ c.toNat = 33 ∨ c.toNat = 126 ∨ c.toNat = 42 ∨
       c.toNat = 39 ∨ c.toNat = 40 ∨ c.toNat = 41) := by
  have k1 : ('A').toNat = 65 := rfl
  have k2 : ('Z').toNat = 90 := rfl
  have k3 : ('a').toNat = 97 := rfl
  have k4 : ('z').toNat = 122 := rfl
  have k5 : ('0').toNat = 48 := rfl
  have k6 : ('9').toNat = 57 := rfl
  have k7 : ('-').toNat = 45 := rfl
  have k8 : ('_').toNat = 95 := rfl
  have k9 : ('.').toNat = 46 := rfl
  have k10 : ('!').toNat = 33 := rfl
  have k11 : ('~').toNat = 126 := rfl
  have k12 : ('*').toNat = 42 := rfl
  have k13 : ('\'').toNat = 39 := rfl
  have k14 : ('(').toNat = 40 := rfl
  have k15 : (')').toNat = 41 := rfl
  simp only [isUnreservedURI, Bool.or_eq_true, Bool.and_eq_true,
    decide_eq_true_eq, char_le_iff_toNat, char_eq_iff_toNat,
    k1, k2, k3, k4, k5, k6, k7, k8, k9, k10, k11, k12, k13, k14, k15]
  omega

/-- UTF-8 bytes are bytes. -/
theorem utf8Bytes_lt (c : Char) : ∀ b ∈ utf8Bytes c, b < 256 := by
  intro b hb
  have hc := char_toNat_lt c
  simp only [utf8Bytes] at hb
  split_ifs at hb with h1 h2 h3 <;> simp at hb <;> omega

/-- The hex digits emitted by the encoder are unescaped characters. -/
theorem hexDigitUpper_unreserved (n : Nat) (h : n ≤ 15) :
    isUnreservedURI (hexDigitUpper n) = true := by
  rw [isUnreservedURI_iff]
  unfold hexDigitUpper
  split_ifs with h10
  · rw [toNat_ofNat_lt _ (by omega)]
    omega
  · rw [toNat_ofNat_lt _ (by omega)]
    omega

/-- Every character emitted by `encodeURIComponent` is an unescaped
character, a `%`, or an uppercase hex digit (itself unescaped). -/
theorem encChar_mem (v : List Char) (x : Char)
    (hx : x ∈ encodeURIComponentL v) :
    isUnreservedURI x = true ∨ x = '%' := by
  unfold encodeURIComponentL at hx
  rcases List.mem_flatten.mp hx with ⟨piece, hpiece, hxp⟩
  rcases List.mem_map.mp hpiece with ⟨c, -, rfl⟩
  by_cases hc : isUnreservedURI c = true
  · rw [if_pos hc] at hxp
    rcases List.mem_singleton.mp hxp with rfl
    exact Or.inl hc
  · rw [if_neg hc] at hxp
    rcases List.mem_flatten.mp hxp with ⟨pb, hpb, hxb⟩
    rcases List.mem_map.mp hpb with ⟨b, hbmem, rfl⟩
    have hblt := utf8Bytes_lt c b hbmem
    simp only [percentByte, List.mem_cons, List.not_mem_nil, or_false] at hxb
    rcases hxb with rfl | rfl | rfl
    · exact Or.inr rfl
    · exact Or.inl (hexDigitUpper_unreserved _ (by omega))
    · exact Or.inl (hexDigitUpper_unreserved _ (by omega))

/-- Characters of the encoder output are not whitespace, `;` or `=`
is irrelevant for values: only whitespace and `;` matter. -/
theorem encChar_safe (v : List Char) (x : Char)
    (hx : x ∈ encodeURIComponentL v) : isJsWs x = false ∧ x ≠ ';' := by
  have hpct : ('%').toNat = 37 := rfl
  have hsemi : (';').toNat = 59 := rfl
  rcases encChar_mem v x hx with h | rfl
  · rw [isUnreservedURI_iff] at h
    constructor
    · rw [← Bool.not_eq_true, isJsWs_iff]
      omega
    · rw [ne_eq, char_eq_iff_toNat, hsemi]
      omega
  · constructor
    · rw [← Bool.not_eq_true, isJsWs_iff, hpct]
      omega
    · rw [ne_eq, char_eq_iff_toNat, hpct, hsemi]
      omega

/-- Master parse lemma: on an input of the shape
`name ++ "=" ++ value ++ ";" ++ attributes`, with a non-empty name free
of whitespace, `;` and `=`, and a value free of whitespace and `;`,
`Cookie.parse` reduces to the validating constructor applied to the
trimmed pair and the attribute-loop fold over the `;`-split
attributes. -/
theorem parse_pair_attrs (dp : String → Option Int) (n v rest : List Char)
    (hn : n ≠ [])
    (hnc : ∀ x ∈ n, isJsWs x = false ∧ x ≠ ';' ∧ x ≠ '=')
    (hvc : ∀ x ∈ v, isJsWs x = false ∧ x ≠ ';') :
    Cookie.parse dp ⟨n ++ '=' :: v ++ ';' :: rest⟩ =
      Cookie.create (mkParseOptions n v
        ((splitSep ';' rest).foldl (processAttribute dp) initAttrState)) := by
  have hsemi_n : ';' ∉ n := fun hm => ((hnc _ hm).2.1) rfl
  have heq_n : '=' ∉ n := fun hm => ((hnc _ hm).2.2) rfl
  have hsemi_v : ';' ∉ v := fun hm => ((hvc _ hm).2) rfl
  have hxs : ';' ∉ n ++ '=' :: v := by
    intro hm
    rcases List.mem_append.mp hm with hm | hm
    · exact hsemi_n hm
    · rcases List.mem_cons.mp hm with he | hm
      · exact absurd he (by decide)
      · exact hsemi_v hm
  have hidx : indexOfFirst ';' (n ++ '=' :: v ++ ';' :: rest) =
      some (n ++ '=' :: v).length :=
    indexOfFirst_append_sep ';' (n ++ '=' :: v) rest hxs
  have hpair : cookiePairOf (n ++ '=' :: v ++ ';' :: rest) = n ++ '=' :: v := by
    unfold cookiePairOf
    rw [hidx]
    exact List.take_left _ _
  have hattrs : attributesOf (n ++ '=' :: v ++ ';' :: rest) = some rest := by
    unfold attributesOf
    rw [hidx]
    show some (List.drop ((n ++ '=' :: v).length + 1)
      ((n ++ '=' :: v) ++ ';' :: rest)) = some rest
    rw [drop_len_cons_append]
  have hidx2 : indexOfFirst '=' (cookiePairOf (n ++ '=' :: v ++ ';' :: rest)) =
      some n.length := by
    rw [hpair]
    exact indexOfFirst_append_sep '=' n v heq_n
  have htaken : jsTrim ((cookiePairOf (n ++ '=' :: v ++ ';' :: rest)).take n.length) = n := by
    rw [hpair, List.take_left]
    exact jsTrim_eq_self_of_forall n (fun x hx => (hnc x hx).1)
  have hdropv : jsTrim ((cookiePairOf (n ++ '=' :: v ++ ';' :: rest)).drop (n.length + 1)) = v := by
    rw [hpair, drop_len_cons_append]
    exact jsTrim_eq_self_of_forall v (fun x hx => (hvc x hx).1)
  have hlen : ¬ (String.mk (n ++ '=' :: v ++ ';' :: rest)).data.length < 2 := by
    show ¬ ((n ++ '=' :: v) ++ ';' :: rest).length < 2
    simp only [List.length_append, List.length_cons]
    omega
  rw [parse_eq_cases, if_neg hlen]
  have hdata : (String.mk (n ++ '=' :: v ++ ';' :: rest)).data =
      n ++ '=' :: v ++ ';' :: rest := rfl
  rw [hdata, hidx2]
  show (if jsTrim ((cookiePairOf (n ++ '=' :: v ++ ';' :: rest)).take n.length) = []
      then Except.error ("Invalid cookie string: name cannot be empty")
      else Cookie.create (parseOptionsAt dp (n ++ '=' :: v ++ ';' :: rest) n.length)) = _
  rw [htaken, if_neg hn]
  congr 1
  unfold parseOptionsAt mkParseOptions parseAttrState
  have htn : jsTrim n = n := jsTrim_eq_self_of_forall n (fun x hx => (hnc x hx).1)
  have htv : jsTrim v = v := jsTrim_eq_self_of_forall v (fun x hx => (hvc x hx).1)
  simp only [hattrs, hpair, List.take_left, drop_len_cons_append, htn, htv]
/-! ## Claim C3: the name/value round trip -/

/-- Serialization of a bare name/value cookie: pair, `Path=/` and
`SameSite=Lax`, joined with `"; "`. -/
theorem toStr_default (fmt : Int → String) (n v : String) :
    Cookie.toStr fmt (defaultCookie n v) =
      ⟨n.data ++ '=' :: encodeURIComponentL v.data ++ ';' ::
        (" Path=/; SameSite=Lax").data⟩ := by
  have hparts : Cookie.toStringParts fmt (defaultCookie n v) =
      [n.data ++ '=' :: encodeURIComponentL v.data,
       ("Path=/").data, ("SameSite=Lax").data] := rfl
  show (⟨joinSemi (Cookie.toStringParts fmt (defaultCookie n v))⟩ : String) = _
  rw [hparts]
  have hjoin : joinSemi
      [n.data ++ '=' :: encodeURIComponentL v.data,
       ("Path=/").data, ("SameSite=Lax").data] =
      (n.data ++ '=' :: encodeURIComponentL v.data) ++ ("; ").data ++
        (("Path=/").data ++ ("; ").data ++ ("SameSite=Lax").data) := rfl
  rw [hjoin]
  have htail : ("; ").data ++ ((("Path=/").data ++ ("; ").data) ++
      ("SameSite=Lax").data) = ';' :: (" Path=/; SameSite=Lax").data := rfl
  congr 1
  rw [List.append_assoc, htail]

/-- Claim C3 as amended.  For a cookie built by the validating
constructor from only a name and a value, parsing its serialization
succeeds and reconstructs the name and the attribute defaults
(domain "", path "/", sameSite Lax), but the parsed value is
`encodeURIComponent` of the original value — `toString` URL-encodes
and `parse` does not decode — so the value round-trips exactly when
encoding leaves it unchanged. -/
theorem claim_C3 (dp : String → Option Int) (fmt : Int → String)
    (name value : String) (h : isValidCookieName name = true) :
    Cookie.create { name := name, value := value } =
      .ok (defaultCookie name value) ∧
    Cookie.parse dp (Cookie.toStr fmt (defaultCookie name value)) =
      .ok (defaultCookie name ⟨encodeURIComponentL value.data⟩) := by
  constructor
  · simp [Cookie.create, h, jsStrOptFails, jsOrStr, jsOrInt, jsOrNaN,
      defaultCookie]
  · rw [toStr_default]
    rcases validName_chars name h with ⟨hne, hchars⟩
    have hvc : ∀ x ∈ encodeURIComponentL value.data,
        isJsWs x = false ∧ x ≠ ';' := fun x hx => encChar_safe value.data x hx
    rw [parse_pair_attrs dp name.data (encodeURIComponentL value.data)
      ((" Path=/; SameSite=Lax").data) hne hchars hvc]
    have hst : (splitSep ';' ((" Path=/; SameSite=Lax").data)).foldl
        (processAttribute dp) initAttrState = initAttrState := rfl
    rw [hst]
    have hname : isValidCookieName (⟨name.data⟩ : String) = true := h
    simp [Cookie.create, mkParseOptions, hname, jsStrOptFails, jsOrStr,
      jsOrInt, jsOrNaN, initAttrState, defaultCookie]
    decide

/-- Witness for the amended C3 at `name = "n"`, `value = "v w"`. -/
theorem claim_C3_witness :
    Cookie.create { name := "n", value := "v w" } =
      .ok (defaultCookie ("n") ("v w")) ∧
    Cookie.parse (fun _ => none)
        (Cookie.toStr (fun _ => "") (defaultCookie ("n") ("v w"))) =
      .ok (defaultCookie ("n") ⟨encodeURIComponentL (("v w") : String).data⟩) :=
  claim_C3 (fun _ => none) (fun _ => "") ("n") ("v w") (by decide)

/-- Counterexample to claim C3 as stated: for the name/value cookie
`test` / `hello world`, parsing the serialization yields the value
`hello%20world`, not `hello world` — the `Expires`-free default
attributes do reconstruct, but the value does not round-trip. -/
theorem claim_C3_counterexample :
    Cookie.create { name := "test", value := "hello world" } = .ok cookieC3 ∧
    Cookie.parse (fun _ => none) (Cookie.toStr (fun _ => "") cookieC3) =
      .ok { cookieC3 with value := "hello%20world" } ∧
    ({ cookieC3 with value := "hello%20world" } : Cookie).value ≠
      cookieC3.value := by
  refine ⟨by rfl, by rfl, by decide⟩

/-! ## Claim C1: Max-Age / Expires precedence and token order -/

/-- The `expires` case of the attribute switch: applied only when no
`max-age` has been seen yet and the value is non-empty. -/
theorem processAttrCore_expires (dp : String → Option Int) (st : AttrState)
    (d : List Char) (hne : d ≠ []) :
    processAttrCore dp st (("expires").data) d =
      (if st.hasMaxAge then st
       else
         match dp ⟨d⟩ with
         | some parsed => { st with expires := parsed }
         | none => st) := by
  unfold processAttrCore
  rw [if_neg (by decide), if_neg (by decide), if_pos rfl]
  have hd : decide (d ≠ []) = true := decide_eq_true hne
  cases hma : st.hasMaxAge with
  | true => simp [hma, hd]
  | false => simp [hma, hd]

/-- Splitting an attribute token of the shape
`" " ++ name ++ "=" ++ value` with a well-behaved name and a trimmed
non-empty value. -/
theorem attrName_value_of (nm d : List Char)
    (hnm1 : nm ≠ []) (hnmc : ∀ x ∈ nm, isJsWs x = false ∧ x ≠ '=')
    (hne : d ≠ [])
    (hw1 : ∀ x, d.head? = some x → isJsWs x = false)
    (hw2 : ∀ x, d.reverse.head? = some x → isJsWs x = false) :
    attrNameOf (' ' :: nm ++ '=' :: d) = jsToLower nm ∧
    attrValueOf (' ' :: nm ++ '=' :: d) = d := by
  have heq_nm : '=' ∉ nm := fun hm => ((hnmc _ hm).2) rfl
  have htok : jsTrim (' ' :: nm ++ '=' :: d) = nm ++ '=' :: d := by
    rw [show (' ' :: nm ++ '=' :: d) = ' ' :: (nm ++ '=' :: d) from rfl,
      jsTrim_cons_ws _ _ (by decide)]
    refine jsTrim_eq_self_of _ ?_ ?_
    · intro x hx
      cases nm with
      | nil => exact absurd rfl hnm1
      | cons a nm2 =>
        simp only [List.cons_append, List.head?_cons, Option.some.injEq] at hx
        exact hx ▸ (hnmc a (List.mem_cons_self a nm2)).1
    · intro x hx
      rw [show nm ++ '=' :: d = (nm ++ ['=']) ++ d by simp,
        reverse_head_append _ _ hne] at hx
      exact hw2 x hx
  have hidx : indexOfFirst '=' (jsTrim (' ' :: nm ++ '=' :: d)) =
      some nm.length := by
    rw [htok]
    exact indexOfFirst_append_sep '=' nm d heq_nm
  constructor
  · unfold attrNameOf
    rw [hidx, htok]
    show jsToLower (jsTrim ((nm ++ '=' :: d).take nm.length)) = _
    rw [List.take_left]
    rw [jsTrim_eq_self_of_forall nm (fun x hx => (hnmc x hx).1)]
  · unfold attrValueOf
    rw [hidx, htok]
    show jsTrim ((nm ++ '=' :: d).drop (nm.length + 1)) = _
    rw [drop_len_cons_append]
    exact jsTrim_eq_self_of d hw1 hw2

/-- Claim C1 as amended.  With both a `Max-Age=60` and a parseable
`Expires` attribute, `maxAge` is always 60, but `expires` depends on
token order: when `Max-Age` comes first the lock flag discards the
`Expires` token and `expires` stays `-1`; when `Expires` comes first
its parsed date is stored (and survives), so `expires` is the parsed
timestamp (conflated with `-1` by the constructor only when the
timestamp is the falsy value 0). -/
theorem claim_C1 (dp : String → Option Int) (d : List Char) (t : Int)
    (hdp : dp ⟨d⟩ = some t) (hne : d ≠ []) (hsemi : ';' ∉ d)
    (hw1 : ∀ x, d.head? = some x → isJsWs x = false)
    (hw2 : ∀ x, d.reverse.head? = some x → isJsWs x = false) :
    Cookie.parse dp ⟨("a=b; Max-Age=60; Expires=").data ++ d⟩ =
      .ok { name := "a", value := "b", domain := "", path := "/",
            expires := -1, secure := false, sameSite := CookieSameSite.Lax,
            httpOnly := false, maxAge := some 60, partitioned := false } ∧
    Cookie.parse dp ⟨("a=b; Expires=").data ++ d ++ ("; Max-Age=60").data⟩ =
      .ok { name := "a", value := "b", domain := "", path := "/",
            expires := if t = 0 then -1 else t, secure := false,
            sameSite := CookieSameSite.Lax, httpOnly := false,
            maxAge := some 60, partitioned := false } := by
  have hExpTok : ∀ st : AttrState,
      processAttribute dp st ((" Expires=").data ++ d) =
        (if st.hasMaxAge then st
         else
           match dp ⟨d⟩ with
           | some parsed => { st with expires := parsed }
           | none => st) := by
    intro st
    have h1 : (" Expires=").data ++ d = ' ' :: ("Expires").data ++ '=' :: d := rfl
    have hnv := attrName_value_of (("Expires").data) d (by decide)
      (by decide) hne hw1 hw2
    unfold processAttribute
    rw [h1, hnv.1, hnv.2]
    rw [show jsToLower (("Expires").data) = ("expires").data from rfl]
    exact processAttrCore_expires dp st d hne
  have hsemiExp : ';' ∉ (" Expires=").data ++ d := by
    intro hm
    rcases List.mem_append.mp hm with hm | hm
    · exact absurd hm (by decide)
    · exact hsemi hm
  constructor
  · -- Max-Age first, then Expires: the lock discards the date.
    have hstr : (⟨("a=b; Max-Age=60; Expires=").data ++ d⟩ : String) =
        ⟨("a").data ++ '=' :: ("b").data ++ ';' ::
          ((" Max-Age=60").data ++ ';' :: ((" Expires=").data ++ d))⟩ := rfl
    rw [hstr, parse_pair_attrs dp _ _ _ (by decide) (by decide) (by decide)]
    have hsplit : splitSep ';'
        ((" Max-Age=60").data ++ ';' :: ((" Expires=").data ++ d)) =
        [(" Max-Age=60").data, (" Expires=").data ++ d] := by
      rw [splitSep_append_sep _ _ _ (by decide),
        splitSep_of_not_mem _ _ hsemiExp]
    rw [hsplit, List.foldl_cons, List.foldl_cons, List.foldl_nil]
    have hma : processAttribute dp initAttrState ((" Max-Age=60").data) =
        { initAttrState with maxAge := some 60, hasMaxAge := true } := rfl
    rw [hma, hExpTok]
    rfl
  · -- Expires first, then Max-Age: the date is stored and survives.
    have hstr : (⟨("a=b; Expires=").data ++ d ++ ("; Max-Age=60").data⟩ : String) =
        ⟨("a").data ++ '=' :: ("b").data ++ ';' ::
          ((" Expires=").data ++ d ++ ';' :: (" Max-Age=60").data)⟩ := rfl
    rw [hstr, parse_pair_attrs dp _ _ _ (by decide) (by decide) (by decide)]
    have hsplit : splitSep ';'
        ((" Expires=").data ++ d ++ ';' :: (" Max-Age=60").data) =
        [(" Expires=").data ++ d, (" Max-Age=60").data] := by
      rw [show (" Expires=").data ++ d ++ ';' :: (" Max-Age=60").data =
        ((" Expires=").data ++ d) ++ ';' :: (" Max-Age=60").data from rfl]
      rw [splitSep_append_sep _ _ _ hsemiExp,
        splitSep_of_not_mem _ _ (by decide)]
    rw [hsplit, List.foldl_cons, List.foldl_cons, List.foldl_nil, hExpTok]
    rw [show (initAttrState.hasMaxAge : Bool) = false from rfl]
    rw [if_neg (by decide), hdp]
    rfl

/-- Witness for the amended C1 with a one-character date string. -/
theorem claim_C1_witness :
    Cookie.parse (fun s => if s = "D" then some 2000 else none)
        ⟨("a=b; Max-Age=60; Expires=").data ++ ("D").data⟩ =
      .ok { name := "a", value := "b", domain := "", path := "/",
            expires := -1, secure := false, sameSite := CookieSameSite.Lax,
            httpOnly := false, maxAge := some 60, partitioned := false } ∧
    Cookie.parse (fun s => if s = "D" then some 2000 else none)
        ⟨("a=b; Expires=").data ++ ("D").data ++ ("; Max-Age=60").data⟩ =
      .ok { name := "a", value := "b", domain := "", path := "/",
            expires := if (2000 : Int) = 0 then -1 else 2000, secure := false,
            sameSite := CookieSameSite.Lax, httpOnly := false,
            maxAge := some 60, partitioned := false } :=
  claim_C1 (fun s => if s = "D" then some 2000 else none) (("D").data) 2000
    (by decide) (by decide) (by decide) (by decide) (by decide)

/-- Counterexample to claim C1 as stated: with a parseable `Expires`
date appearing before `Max-Age=60`, the parsed cookie has
`maxAge = 60` but `expires = 2000`, not the unset sentinel `-1` —
the lock flag only discards `Expires` tokens that come after
`Max-Age`. -/
theorem claim_C1_counterexample :
    dpC1 ("Thu, 01 Jan 1970 00:00:02 GMT") = some 2000 ∧
    Cookie.parse dpC1
        ("a=b; Expires=Thu, 01 Jan 1970 00:00:02 GMT; Max-Age=60") =
      .ok { name := "a", value := "b", domain := "", path := "/",
            expires := 2000, secure := false,
            sameSite := CookieSameSite.Lax, httpOnly := false,
            maxAge := some 60, partitioned := false } ∧
    ((2000 : Int) = -1 → False) := by
  refine ⟨by rfl, by rfl, by decide⟩

end CookiesExtra
